import Mathlib

/-!
Verification of the redash-loader synchronization engine (fetch.py and
push.py): a shallow embedding of the data model and the operations the
claims concern, with theorems about them.

Modelling conventions:
* Python dicts keyed by strings are association lists in insertion order.
* Remote requests are recorded in an explicit trace of `RemoteOp`s, in
  program order; server-assigned ids are modelled by a fresh-id counter.
* `KeyError` (and any other uncaught exception) is `none`; the source's
  unguarded recursion in `upload_query` is driven by fuel, exhausted
  fuel being `none` as well.
* ruamel round-trip annotations (comments and the like, preserved by the
  merge-on-change writer) are modelled as an opaque `note` tag on stored
  values; value equality (`==` on loaded YAML) ignores the tag.
-/

namespace RedashLoader

/-! ### Association lists (Python dicts) -/

def lookupA {α : Type} (k : String) : List (String × α) → Option α
  | [] => none
  | (k', v) :: t => if k' = k then some v else lookupA k t

def setA {α : Type} (k : String) (v : α) : List (String × α) → List (String × α)
  | [] => [(k, v)]
  | (k', v') :: t => if k' = k then (k, v) :: t else (k', v') :: setA k v t

def lookupId {α : Type} (k : Nat) : List (Nat × α) → Option α
  | [] => none
  | (k', v) :: t => if k' = k then some v else lookupId k t

/-! ### Character classes of the link-template regexes -/

def isSlugCh (c : Char) : Bool :=
  (('a' ≤ c && c ≤ 'z') || ('0' ≤ c && c ≤ '9') || c == '-')

def dashPrefix : List Char := "/dashboards/".data

/-- Python `$` (no MULTILINE): end of the string, or just before a final
newline. -/
def endAnchor (l : List Char) : Bool := l == [] || l == ['\n']

/-! ### Fetch direction: the link-template rewrite (fetch.py line 127)

`re.sub(r'(^/dashboards/)[0-9]+(-[a-z0-9-]+\?.+|$)', r'\g<1>0\g<2>', url)`.
The pattern is anchored at the start.  When it matches, the substitution
replaces the id digits by `0`; every other character of the url (whether
inside a capture group or beyond the matched span) is kept verbatim, so
the output is `/dashboards/0` followed by the text after the digits.
`.` does not match a newline, so `\?.+` needs a `?` followed by at least
one non-newline character.  Backtracking cannot help a failed match here:
shortening the digit run puts a digit where `-` or the end is required. -/

/-- `\?.+`: a `?` followed by at least one non-newline character. -/
def fetchQueryMatches : List Char → Bool
  | '?' :: c :: _ => !(c == '\n')
  | _ => false

/-- `-[a-z0-9-]+\?.+`: a dash, a non-empty maximal slug run, then the
query-string part. -/
def fetchSlugMatches : List Char → Bool
  | '-' :: u =>
    (!(u.takeWhile isSlugCh).isEmpty) && fetchQueryMatches (u.dropWhile isSlugCh)
  | _ => false

def fetchLinkMatches (rest : List Char) : Bool :=
  endAnchor rest || fetchSlugMatches rest

def fetchFixLinkCore (cs : List Char) : List Char :=
  if cs.take dashPrefix.length = dashPrefix then
    if (!((cs.drop dashPrefix.length).takeWhile Char.isDigit).isEmpty) &&
        fetchLinkMatches ((cs.drop dashPrefix.length).dropWhile Char.isDigit) then
      dashPrefix ++ '0' :: (cs.drop dashPrefix.length).dropWhile Char.isDigit
    else cs
  else cs

def fetch_fix_link (url : String) : String := ⟨fetchFixLinkCore url.data⟩

/-! ### Fetch direction: parameter rewrite (fetch.py lines 104-109) -/

structure Param where
  ptype : String
  queryId : Option Nat
  queryName : Option String
  deriving DecidableEq

/-- `param["queryName"] = queries[param["queryId"]]["name"]; del param["queryId"]`
for each parameter of type `"query"`; `queriesById` is the id-indexed dict
of all fetched queries, giving each one's name.  A missing `queryId` key
or an id absent from the fetched set raises `KeyError` (`none`). -/
def rewrite_params_fetch (queriesById : List (Nat × String)) :
    List Param → Option (List Param)
  | [] => some []
  | p :: t =>
    if p.ptype = "query" then
      match p.queryId with
      | none => none
      | some qid =>
        match lookupId qid queriesById with
        | none => none
        | some nm =>
          (rewrite_params_fetch queriesById t).map
            (fun t' => { p with queryName := some nm, queryId := none } :: t')
    else (rewrite_params_fetch queriesById t).map (fun t' => p :: t')

/-! ### Fetch direction: merge-on-change of allow-listed fields
(fetch.py lines 111-116 for queries, 169-171 for dashboards) -/

/-- A stored document value together with an opaque annotation tag
(comments and ordering preserved by the ruamel round-trip loader).
Value comparison (`!=` in the source) ignores the tag. -/
structure Node (V : Type) where
  val : V
  note : Nat
  deriving DecidableEq

/-- One allow-listed field of the query metadata merge:
`if field in query: if metadata.get(field) != query.get(field):
metadata[field] = query[field]`.  A fresh assignment carries no
annotations (`note = 0`). -/
def merge_field {V : Type} [DecidableEq V] (doc : List (String × Node V))
    (f : String) (newVal : Option V) : List (String × Node V) :=
  match newVal with
  | none => doc
  | some v =>
    if (lookupA f doc).map Node.val = some v then doc else setA f ⟨v, 0⟩ doc

def merge_fields {V : Type} [DecidableEq V] (fields : List String)
    (query : String → Option V) (doc : List (String × Node V)) :
    List (String × Node V) :=
  fields.foldl (fun d f => merge_field d f (query f)) doc

/-- The dashboard variant (fetch.py 169-171):
`if dashboard_data.get(i, None) != dashboard[i]: dashboard_data[i] = dashboard[i]`,
the fetched dashboard having every allow-listed field. -/
def merge_fields_dashboard {V : Type} [DecidableEq V] (fields : List String)
    (dash : String → V) (doc : List (String × Node V)) :
    List (String × Node V) :=
  fields.foldl
    (fun d f =>
      if (lookupA f d).map Node.val = some (dash f) then d else setA f ⟨dash f, 0⟩ d)
    doc

/-! ### Fetch direction: visualization pruning and sorting
(fetch.py lines 118-136) -/

structure Column where
  displayAs : Option String
  linkUrlTemplate : String
  deriving DecidableEq

def fix_column_fetch (c : Column) : Column :=
  if c.displayAs = some "link" then
    { c with linkUrlTemplate := fetch_fix_link c.linkUrlTemplate }
  else c

/-- A fetched visualization: `vtype`/`name`/`description` plus its options,
split into the link columns and an abstraction of any other option
content (`optionsRest = []` models `options == {}`), plus the churn
fields removed by `VISUALIZATIONS_IGNORE_FIELDS` (absent key = `none`). -/
structure FViz where
  vtype : String
  name : String
  description : String
  columns : List Column
  optionsRest : List String
  vid : Option Nat
  updated_at : Option Nat
  created_at : Option Nat
  deriving DecidableEq

/-- `{"type": "TABLE", "name": "Table", "options": {}, "description": ""}` -/
def default_table : FViz := ⟨"TABLE", "Table", "", [], [], none, none, none⟩

def strip_viz (v : FViz) : FViz :=
  { v with vid := none, updated_at := none, created_at := none }

def fix_viz_columns (v : FViz) : FViz :=
  { v with columns := v.columns.map fix_column_fetch }

/-- fetch.py 118-136: strip churn fields and fix link columns on every
visualization, drop any equal to the unmodified default Table, sort the
rest by name. -/
def process_visualizations (vizs : List FViz) : List FViz :=
  (((vizs.map (fun v => fix_viz_columns (strip_viz v))).filter
      (fun v => !(v == default_table))).mergeSort
    (fun a b => a.name ≤ b.name))

/-! ### Fetch direction: dashboard widget ordering (fetch.py 173-182)

`FWidget` models the fields of a widget kept by the reduction (position,
text, and the `{name, queryName}` pair of an attached visualization). -/

structure FWidget where
  row : Nat
  col : Nat
  text : String
  viz : Option (String × String)
  deriving DecidableEq

/-- The `(row, col)` sort key order used by
`dashboard["widgets"].sort(key=lambda i: (row, col))`. -/
def widget_le (a b : FWidget) : Bool :=
  decide (a.row < b.row ∨ (a.row = b.row ∧ a.col ≤ b.col))

/-- The widget list as persisted by `save_dashboards`: sorted by
`(row, col)` (Python's sort is stable; so is `mergeSort`). -/
def save_dashboard_widgets (ws : List FWidget) : List FWidget :=
  ws.mergeSort widget_le

/-! ### Push direction: data model -/

/-- A saved visualization (from the query's metadata file), with the
fields `upload_query` mutates in place: `query_id` and `uploaded_id`
are set during the run, the link columns are fixed against the remote
dashboards. -/
structure SViz where
  name : String
  columns : List Column
  query_id : Option Nat
  uploaded_id : Option Nat
  deriving DecidableEq

/-- A saved query as loaded by `load_saved_queries`: the allow-listed
metadata plus the run-scoped `uploaded_id` cache (absent key = `none`;
`params` models `options["parameters"]`, an absent key being `[]`). -/
structure QueryData where
  name : String
  params : List Param
  visualizations : List SViz
  uploaded_id : Option Nat
  deriving DecidableEq

/-- An existing remote query as held in `existing_queries`: its
server id and the name-to-id view of its visualizations. -/
structure RemoteQuery where
  id : Nat
  vizIds : List (String × Nat)
  deriving DecidableEq

/-- An existing remote widget; `viz` is the `(visualization name,
query name)` pair read by the removal loop's progress print (a widget
without a visualization makes that read a `KeyError`). -/
structure RWidget where
  id : Nat
  viz : Option (String × String)
  deriving DecidableEq

/-- An existing remote dashboard as held in `existing_dashboards`. -/
structure RDashboard where
  id : Nat
  slug : String
  widgets : List RWidget
  deriving DecidableEq

/-- One remote request, as recorded in the trace. -/
inductive RemoteOp where
  | createQuery (name : String) (payload : QueryData)
  | updateQuery (name : String) (id : Nat) (payload : QueryData)
  | createViz (queryId : Nat) (vname : String)
  | updateViz (vizId : Nat) (vname : String)
  | createDashboard (name : String)
  | updateDashboard (id : Nat) (isDraft : Bool)
  | deleteWidget (id : Nat)
  | createWidget (dashId : Nat) (vizId : Nat) (text : String) (row : Nat) (col : Nat)
  deriving DecidableEq

/-- The state threading through a push run: the saved dicts loaded from
disk, the remote snapshots, the server's fresh-id counter, and the trace
of remote requests issued so far (in program order). -/
structure PushState where
  saved : List (String × QueryData)
  existing : List (String × RemoteQuery)
  dashboards : List (String × RDashboard)
  nextId : Nat
  trace : List RemoteOp
  deriving DecidableEq

def uploadedId (st : PushState) (n : String) : Option Nat :=
  match lookupA n st.saved with
  | some q => q.uploaded_id
  | none => none

def setSaved (n : String) (q : QueryData) (st : PushState) : PushState :=
  { st with saved := setA n q st.saved }

/-! ### Push direction: `fix_dashboard_url_id` (push.py lines 68-86) -/

/-- The `(\?.+|$)` group of the push pattern, after digits and slug have
been captured: `$` yields an empty third group; `\?.+` yields `?` plus
the non-newline run after it, which must be non-empty. -/
def pushQueryGroup (digits s : List Char) :
    List Char → Option (List Char × List Char × List Char)
  | '?' :: t =>
    if (t.takeWhile (fun c => !(c == '\n'))).isEmpty then none
    else some (digits, s, '?' :: t.takeWhile (fun c => !(c == '\n')))
  | _ => none

def pushSlugGroup (digits s r : List Char) :
    Option (List Char × List Char × List Char) :=
  if digits.isEmpty || s.isEmpty then none
  else if endAnchor r then some (digits, s, [])
  else pushQueryGroup digits s r

/-- After the digits: a dash, then the maximal slug run and what follows. -/
def pushDashGroup (digits : List Char) :
    List Char → Option (List Char × List Char × List Char)
  | '-' :: u => pushSlugGroup digits (u.takeWhile isSlugCh) (u.dropWhile isSlugCh)
  | _ => none

/-- The match of `^/dashboards/([0-9]+)-([a-z0-9-]+)(\?.+|$)` against a
character list, returning the three captured groups.  `$` matches at the
end or before a final newline; `.` does not match a newline, and
backtracking cannot rescue a failed maximal-munch split. -/
def pushLinkMatch (cs : List Char) : Option (List Char × List Char × List Char) :=
  if cs.take dashPrefix.length = dashPrefix then
    pushDashGroup ((cs.drop dashPrefix.length).takeWhile Char.isDigit)
      ((cs.drop dashPrefix.length).dropWhile Char.isDigit)
  else none

/-- `fix_dashboard_url_id` (push.py 68-86).  Returns the possibly
rewritten url, paired with a flag recording whether the error branch was
taken (`logging.error` on an unknown slug; the `IndexError` is caught,
no exception escapes).  On a match the url is rebuilt from the groups as
`f"/dashboards/{id}-{slug}{query}"`, the id being that of the first
existing dashboard whose slug equals the captured slug. -/
def fix_dashboard_url_id (url : String) (existing_dashboards : List RDashboard) :
    String × Bool :=
  match pushLinkMatch url.data with
  | none => (url, false)
  | some (_, s, q) =>
    match (existing_dashboards.filter (fun d => d.slug == String.mk s)).head? with
    | some d => (⟨dashPrefix ++ (Nat.repr d.id).data ++ '-' :: (s ++ q)⟩, false)
    | none => (url, true)

def fix_column_push (dbs : List RDashboard) (c : Column) : Column :=
  if c.displayAs = some "link" then
    { c with linkUrlTemplate := (fix_dashboard_url_id c.linkUrlTemplate dbs).1 }
  else c

/-! ### Push direction: `upload_query` (push.py lines 89-172) -/

/-- The visualization loop of `upload_query` (push.py 145-171),
iterating the saved visualizations of `qname` by index — the source
mutates each entry in place (`query_id`, the link-column fix,
`uploaded_id`).  `snapshot` is `existing_visualisations`, read once
before the loop; a visualization present there is updated (the response
returning its id), otherwise it is created (the server assigning a
fresh id). -/
def uploadVizsAux (snapshot : List (String × Nat)) (qname : String) (qid : Nat) :
    Nat → Nat → PushState → PushState
  | 0, _, st => st
  | r + 1, k, st =>
    match lookupA qname st.saved with
    | none => st
    | some q =>
      match q.visualizations.get? k with
      | none => st
      | some viz =>
        let viz1 : SViz :=
          { viz with
            query_id := some qid,
            columns := viz.columns.map (fix_column_push (st.dashboards.map Prod.snd)) }
        match lookupA viz1.name snapshot with
        | some vid =>
          uploadVizsAux snapshot qname qid r (k + 1)
            (setSaved qname
              { q with visualizations :=
                  q.visualizations.set k { viz1 with uploaded_id := some vid } }
              { st with trace := st.trace ++ [RemoteOp.updateViz vid viz1.name] })
        | none =>
          uploadVizsAux snapshot qname qid r (k + 1)
            (setSaved qname
              { q with visualizations :=
                  q.visualizations.set k { viz1 with uploaded_id := some st.nextId } }
              { st with
                trace := st.trace ++ [RemoteOp.createViz qid viz1.name],
                nextId := st.nextId + 1 })

/-- The parameter-resolution loop of `upload_query` (push.py 118-127),
iterating `options["parameters"]` by index.  Each parameter of type
`"query"` has its referenced query uploaded through `uq` (the recursive
call, at one less fuel) and is then rewritten in place:
`param["queryId"] = <returned id>; del param["queryName"]`.  A
query-typed parameter with no `queryName` key raises `KeyError`
(`none`), as does any failure of the recursive upload. -/
def resolveParamsAux (uq : String → PushState → Option (Nat × PushState))
    (qname : String) : Nat → Nat → PushState → Option PushState
  | 0, _, st => some st
  | r + 1, k, st =>
    match lookupA qname st.saved with
    | none => none
    | some q =>
      match q.params.get? k with
      | none => none
      | some p =>
        if p.ptype = "query" then
          match p.queryName with
          | none => none
          | some dep =>
            match uq dep st with
            | none => none
            | some (depId, st1) =>
              match lookupA qname st1.saved with
              | none => none
              | some q1 =>
                match q1.params.get? k with
                | none => none
                | some pLive =>
                  let p1 : Param := { pLive with queryId := some depId, queryName := none }
                  resolveParamsAux uq qname r (k + 1)
                    (setSaved qname { q1 with params := q1.params.set k p1 } st1)
        else resolveParamsAux uq qname r (k + 1) st

/-- The tail of `upload_query` after the create-if-missing step
(push.py 137-172): read the remote id, issue the unconditional update
(`query_data` at that point carries the resolved parameters and no
`uploaded_id` yet), memoize `uploaded_id`, then run the visualization
loop and return the id. -/
def uploadQueryTail (qname : String) (st2 : PushState) : Option (Nat × PushState) :=
  match lookupA qname st2.existing with
  | none => none
  | some rq =>
    match lookupA qname st2.saved with
    | none => none
    | some q2 =>
      some (rq.id,
        uploadVizsAux rq.vizIds qname rq.id q2.visualizations.length 0
          (setSaved qname { q2 with uploaded_id := some rq.id }
            { st2 with trace := st2.trace ++ [RemoteOp.updateQuery qname rq.id q2] }))

/-- `upload_query` (push.py 89-172) on explicit fuel (the source
recursion has no termination guard; exhausted fuel is `none`).  The
memoized early return, the parameter resolution, the create-if-missing
(`if query_name not in existing_queries`) followed by the tail above
follow the source line by line.  The model of the server assigns
`nextId` as the id of a created query and answers a create with an
empty visualization list. -/
def upload_query : Nat → String → PushState → Option (Nat × PushState)
  | 0, _, _ => none
  | fuel + 1, qname, st =>
    match lookupA qname st.saved with
    | none => none
    | some q =>
      match q.uploaded_id with
      | some i => some (i, st)
      | none =>
        match resolveParamsAux (upload_query fuel) qname q.params.length 0 st with
        | none => none
        | some st1 =>
          match lookupA qname st1.saved with
          | none => none
          | some q1 =>
            match lookupA qname st1.existing with
            | some _ => uploadQueryTail qname st1
            | none =>
              uploadQueryTail qname
                { st1 with
                  existing := setA qname ⟨st1.nextId, []⟩ st1.existing,
                  nextId := st1.nextId + 1,
                  trace := st1.trace ++ [RemoteOp.createQuery qname q1] }

/-- `upload_queries` (push.py 203-217): upload every saved query, in the
iteration order of the saved dict's keys. -/
def upload_queries (fuel : Nat) : List String → PushState → Option PushState
  | [], st => some st
  | n :: t, st =>
    match upload_query fuel n st with
    | none => none
    | some (_, st1) => upload_queries fuel t st1

/-! ### Push direction: dashboards (push.py lines 249-338, 386-412) -/

structure SVizRef where
  name : String
  queryName : String
  deriving DecidableEq

/-- A saved widget: its `(row, col)` position and text, and the
`{name, queryName}` visualization reference if the widget has one. -/
structure SWidget where
  visualization : Option SVizRef
  text : String
  row : Nat
  col : Nat
  deriving DecidableEq

structure SDashboard where
  name : String
  is_draft : Bool
  widgets : List SWidget
  deriving DecidableEq

/-- `create_missing_dashboards` (push.py 267-291): create each saved
dashboard missing remotely (the server assigns a fresh id; the
server-derived slug of a new dashboard is abstracted as its name), then
unconditionally update its settings. -/
def create_missing_dashboards (savedDs : List SDashboard) (st : PushState) :
    PushState :=
  savedDs.foldl
    (fun st d =>
      let st1 :=
        if (lookupA d.name st.dashboards).isSome then st
        else
          { st with
            dashboards := setA d.name ⟨st.nextId, d.name, []⟩ st.dashboards,
            nextId := st.nextId + 1,
            trace := st.trace ++ [RemoteOp.createDashboard d.name] }
      match lookupA d.name st1.dashboards with
      | none => st1
      | some rd => { st1 with trace := st1.trace ++ [RemoteOp.updateDashboard rd.id d.is_draft] })
    st

/-- One saved widget of `update_dashboards` (push.py 315-332).  The
`KeyError` paths abort (`none`): no `visualization` entry on the widget,
a `queryName` absent from `saved_queries`, or a resolved visualization
with no `uploaded_id`.  A visualization name not found on the (present)
query sets the error flag and skips the widget (`continue`). -/
def addWidget (dashId : Nat) (w : SWidget) (e : Bool) (st : PushState) :
    Option (Bool × PushState) :=
  match w.visualization with
  | none => none
  | some ref =>
    match lookupA ref.queryName st.saved with
    | none => none
    | some q =>
      match q.visualizations.find? (fun v => v.name == ref.name) with
      | none => some (true, st)
      | some viz =>
        match viz.uploaded_id with
        | none => none
        | some vid =>
          some (e,
            { st with
              trace := st.trace ++
                [RemoteOp.createWidget dashId vid w.text w.row w.col] })

def addWidgets (dashId : Nat) : List SWidget → Bool → PushState → Option (Bool × PushState)
  | [], e, st => some (e, st)
  | w :: t, e, st =>
    match addWidget dashId w e st with
    | none => none
    | some (e1, st1) => addWidgets dashId t e1 st1

/-- The widget-removal loop (push.py 310-313); the progress print reads
`w["visualization"]["name"]`, so an existing widget with no
visualization raises `KeyError`. -/
def deleteWidgets : List RWidget → PushState → Option PushState
  | [], st => some st
  | w :: t, st =>
    match w.viz with
    | none => none
    | some _ => deleteWidgets t { st with trace := st.trace ++ [RemoteOp.deleteWidget w.id] }

def updateDashboardsAux : List SDashboard → Bool → PushState → Option (Bool × PushState)
  | [], e, st => some (e, st)
  | d :: t, e, st =>
    match lookupA d.name st.dashboards with
    | none => none
    | some rd =>
      match deleteWidgets rd.widgets st with
      | none => none
      | some st1 =>
        match addWidgets rd.id d.widgets e st1 with
        | none => none
        | some (e1, st2) => updateDashboardsAux t e1 st2

/-- `update_dashboards` (push.py 294-338): per saved dashboard, delete
every existing remote widget, then add the saved widgets in saved order;
returns 1 if any widget's visualization failed to resolve, else 0,
together with the final state. -/
def update_dashboards (savedDs : List SDashboard) (st : PushState) :
    Option (Nat × PushState) :=
  match updateDashboardsAux savedDs false st with
  | none => none
  | some (e, st1) => some (if e then 1 else 0, st1)

/-- `push` (push.py 386-412), from the point where the initial state
(remote snapshots, saved documents) has been assembled: create missing
dashboards, upload all saved queries, update the dashboards, and exit
with `update_dashboards`' result (lines 409-412). -/
def push (fuel : Nat) (savedDs : List SDashboard) (st : PushState) : Option Nat :=
  let st1 := create_missing_dashboards savedDs st
  match upload_queries fuel (st1.saved.map Prod.fst) st1 with
  | none => none
  | some st2 =>
    match update_dashboards savedDs st2 with
    | none => none
    | some (code, _) => some code

/-- Resolution status of a saved widget against the saved queries:
`some true` means it resolves to an uploaded visualization, `some false`
means the query is present but has no visualization of that name (the
recoverable skip of push.py 322-327), `none` means one of the `KeyError`
paths (no visualization entry, unknown query name, missing
`uploaded_id`). -/
def widgetStatus (st : PushState) (w : SWidget) : Option Bool :=
  match w.visualization with
  | none => none
  | some ref =>
    match lookupA ref.queryName st.saved with
    | none => none
    | some q =>
      match q.visualizations.find? (fun v => v.name == ref.name) with
      | none => some false
      | some viz => viz.uploaded_id.map (fun _ => true)

/-- The widget-creation request a resolvable saved widget gives rise
to (push.py 328-331). -/
def widgetOp (st : PushState) (dashId : Nat) (w : SWidget) : Option RemoteOp :=
  match w.visualization with
  | none => none
  | some ref =>
    match lookupA ref.queryName st.saved with
    | none => none
    | some q =>
      match q.visualizations.find? (fun v => v.name == ref.name) with
      | none => none
      | some viz =>
        viz.uploaded_id.map
          (fun vid => RemoteOp.createWidget dashId vid w.text w.row w.col)

/-- The requests `update_dashboards` issues for one saved dashboard:
deletions of every existing remote widget first, then the creations of
the resolvable saved widgets in saved order. -/
def dashOps (st : PushState) (d : SDashboard) : List RemoteOp :=
  match lookupA d.name st.dashboards with
  | none => []
  | some rd =>
    rd.widgets.map (fun w => RemoteOp.deleteWidget w.id) ++
      d.widgets.filterMap (widgetOp st rd.id)

/-- Per-dashboard sanity: present remotely and every existing remote
widget carries the visualization data the removal loop's print reads. -/
def dashReady (st : PushState) (d : SDashboard) : Bool :=
  match lookupA d.name st.dashboards with
  | none => false
  | some rd => rd.widgets.all (fun w => w.viz.isSome)

/-- No widget of `d` hits a `KeyError` path. -/
def noAborts (st : PushState) (d : SDashboard) : Bool :=
  d.widgets.all (fun w => widgetStatus st w != none)

/-- Some widget of some dashboard fails to resolve (recoverably). -/
def anyFailure (st : PushState) (savedDs : List SDashboard) : Bool :=
  savedDs.any (fun d => d.widgets.any (fun w => widgetStatus st w == some false))

/-! ### Request accounting and the run invariant -/

def isUpdFor (n : String) : RemoteOp → Bool
  | .updateQuery m _ _ => m == n
  | _ => false

def isCreFor (n : String) : RemoteOp → Bool
  | .createQuery m _ => m == n
  | _ => false

/-- Number of query-update requests issued for name `n`. -/
def cntUpd (n : String) (tr : List RemoteOp) : Nat := tr.countP (isUpdFor n)

/-- Number of query-create requests issued for name `n`. -/
def cntCre (n : String) (tr : List RemoteOp) : Nat := tr.countP (isCreFor n)

def uploadedB (st : PushState) (n : String) : Bool := (uploadedId st n).isSome

/-- The run invariant of the upload engine, relative to `E0`, the set of
query names that existed remotely when the run began: a query has been
updated exactly once iff it carries an `uploaded_id`, created exactly
once iff it carries one and was not pre-existing, and the remote set is
the pre-existing set plus the uploaded ones. -/
def Inv (E0 : String → Bool) (st : PushState) : Prop :=
  ∀ n : String,
    cntUpd n st.trace = (if uploadedB st n then 1 else 0) ∧
    cntCre n st.trace = (if uploadedB st n && !(E0 n) then 1 else 0) ∧
    (lookupA n st.existing).isSome = (E0 n || uploadedB st n)

/-- The dependency edge of the saved set: `n` has a query-typed
parameter that still references `m` by name. -/
def edgeB (saved : List (String × QueryData)) (n m : String) : Bool :=
  match lookupA n saved with
  | none => false
  | some q => q.params.any (fun p => p.ptype == "query" && p.queryName == some m)

/-- Acyclicity of the dependency graph, witnessed by a rank function
that strictly decreases along every edge (a decidable check at a
concrete state). -/
def RankOk (saved : List (String × QueryData)) (rank : String → Nat) : Prop :=
  saved.all (fun pr => pr.2.params.all (fun p =>
    !(p.ptype == "query") ||
      (match p.queryName with
       | some m => decide (rank m < rank pr.1)
       | none => true))) = true

/-- The edge-level reading of `RankOk`, closed under edge removal. -/
def RankOkE (saved : List (String × QueryData)) (rank : String → Nat) : Prop :=
  ∀ n m, edgeB saved n m = true → rank m < rank n

/-! ### Monotonicity pieces of the upload engine -/

def TraceExt (st st' : PushState) : Prop := ∃ Δ, st'.trace = st.trace ++ Δ

def UploadedMono (st st' : PushState) : Prop :=
  ∀ m j, uploadedId st m = some j → uploadedId st' m = some j

def EdgeShrink (st st' : PushState) : Prop :=
  ∀ n m, edgeB st'.saved n m = true → edgeB st.saved n m = true

def Mono (st st' : PushState) : Prop :=
  TraceExt st st' ∧ UploadedMono st st' ∧ EdgeShrink st st'

/-- Every saved entry the engine modified (except a possibly excluded
one) belongs to a query that was freshly uploaded between the two
states. -/
def ChangedFresh (qex : Option String) (st st' : PushState) : Prop :=
  ∀ m, lookupA m st'.saved ≠ lookupA m st.saved → some m ≠ qex →
    uploadedId st m = none ∧ (uploadedId st' m).isSome

/-- `edgeB` only depends on the parameter lists of the saved entries. -/
def paramsOf (saved : List (String × QueryData)) (n : String) : Option (List Param) :=
  (lookupA n saved).map QueryData.params

/-! ### The behaviour contract of the recursive upload -/

/-- What one recursive call of the upload engine guarantees: an
extension of the trace, preservation of every memoized id and of the
absence of dependency edges, modified entries only for freshly uploaded
queries, every fresh upload of rank at most the root's, the root
memoized at the returned id, and preservation of the run invariant. -/
def UQSpec (rank : String → Nat) (E0 : String → Bool)
    (uq : String → PushState → Option (Nat × PushState)) : Prop :=
  ∀ qname st i st', uq qname st = some (i, st') → RankOkE st.saved rank →
    Mono st st' ∧ ChangedFresh none st st' ∧
    (∀ m, uploadedId st m = none → (uploadedId st' m).isSome → rank m ≤ rank qname) ∧
    uploadedId st' qname = some i ∧
    (Inv E0 st → Inv E0 st')

/-! ### Concrete witness data for the upload-engine claims: a saved
query "A" with a query-typed parameter referencing "B"; "B" exists
remotely (id 77), "A" does not. -/

def wParam : Param := ⟨"query", none, some "B"⟩

def wQA : QueryData := ⟨"A", [wParam], [], none⟩

def wQB : QueryData := ⟨"B", [], [], none⟩

def wStart : PushState :=
  ⟨[("A", wQA), ("B", wQB)], [("B", ⟨77, []⟩)], [], 100, []⟩

def wRank : String → Nat := fun n => if n = "A" then 1 else 0

def wRun : PushState :=
  (upload_queries 3 (wStart.saved.map Prod.fst) wStart).getD wStart

def wC1res : Nat × PushState := (upload_query 2 "A" wStart).getD (0, wStart)

def c3Viz : SViz := ⟨"V", [], some 9, some 42⟩

def c3Query : QueryData := ⟨"Q", [], [c3Viz], some 9⟩

def c3St : PushState :=
  ⟨[("Q", c3Query)], [], [("D", ⟨3, "d", [⟨21, some ("V", "Q")⟩]⟩)], 0, []⟩

def c3Dash : SDashboard := ⟨"D", false, [⟨some ⟨"V", "Q"⟩, "txt", 0, 0⟩]⟩

def c4Viz : SViz := ⟨"V", [], some 9, some 42⟩

def c4Query : QueryData := ⟨"Q", [], [c4Viz], some 9⟩

def c4St : PushState :=
  ⟨[("Q", c4Query)], [], [("D", ⟨3, "d", [⟨21, some ("V", "Q")⟩]⟩)], 0, []⟩

def c4Dash : SDashboard :=
  ⟨"D", false, [⟨some ⟨"V", "Q"⟩, "a", 0, 0⟩, ⟨some ⟨"W", "Q"⟩, "b", 0, 1⟩]⟩

def c9Query : QueryData := ⟨"Q", [], [], some 5⟩

def c9St : PushState := ⟨[("Q", c9Query)], [], [("D", ⟨1, "d", []⟩)], 0, []⟩

def c9Dash : SDashboard := ⟨"D", false, [⟨some ⟨"Table", "Q"⟩, "t", 0, 0⟩]⟩

def c10St : PushState :=
  ⟨[("Q", ⟨"Q", [], [], some 5⟩)], [], [("D", ⟨2, "d", []⟩)], 0, []⟩

def c10DashBad : SDashboard := ⟨"D", false, [⟨some ⟨"V", "Nope"⟩, "t", 0, 0⟩]⟩

def c10DashOk : SDashboard := ⟨"D", false, [⟨some ⟨"V", "Q"⟩, "t", 0, 0⟩]⟩

def c6Dash : RDashboard := ⟨7, "ab", []⟩

def c6DashZ : RDashboard := ⟨9, "zz", []⟩

def c7QA : QueryData := ⟨"A", [], [], none⟩

def c7St : PushState := ⟨[("A", c7QA)], [("A", ⟨5, []⟩)], [], 0, []⟩

def c7Res : Nat × PushState := (upload_query 1 "A" c7St).getD (0, c7St)

def c7Param : Param := ⟨"query", some 3, none⟩

/-! ### Theorems -/

theorem lookupA_setA_self {α : Type} (k : String) (v : α) :
    ∀ l : List (String × α), lookupA k (setA k v l) = some v := by
  intro l
  induction l with
  | nil => simp [setA, lookupA]
  | cons h t ih =>
    obtain ⟨k', v'⟩ := h
    by_cases hk : k' = k
    · simp [setA, hk, lookupA]
    · simp [setA, hk, lookupA, ih]

theorem lookupA_setA_ne {α : Type} {k m : String} (hne : m ≠ k) (v : α) :
    ∀ l : List (String × α), lookupA m (setA k v l) = lookupA m l := by
  intro l
  induction l with
  | nil => simp [setA, lookupA, Ne.symm hne]
  | cons hd t ih =>
    obtain ⟨k', v'⟩ := hd
    by_cases hk : k' = k
    · subst hk
      simp [setA, lookupA, Ne.symm hne]
    · by_cases hm : k' = m <;> simp [setA, hk, lookupA, hm, ih, hne]

theorem lookupA_mem {α : Type} {k : String} {v : α} :
    ∀ {l : List (String × α)}, lookupA k l = some v → (k, v) ∈ l := by
  intro l
  induction l with
  | nil => intro h; simp [lookupA] at h
  | cons h t ih =>
    obtain ⟨k', v'⟩ := h
    intro hl
    by_cases hk : k' = k
    · subst hk
      simp [lookupA] at hl
      simp [hl]
    · simp [lookupA, hk] at hl
      exact List.mem_cons_of_mem _ (ih hl)

theorem mem_map_fst_of_lookupA {α : Type} {k : String} {v : α}
    {l : List (String × α)} (h : lookupA k l = some v) : k ∈ l.map Prod.fst := by
  exact List.mem_map.2 ⟨(k, v), lookupA_mem h, rfl⟩

theorem rankOk_to_E {saved : List (String × QueryData)} {rank : String → Nat}
    (h : RankOk saved rank) : RankOkE saved rank := by
  intro n m he
  unfold edgeB at he
  cases hq : lookupA n saved with
  | none => rw [hq] at he; simp at he
  | some q =>
    rw [hq] at he
    simp only [List.any_eq_true, Bool.and_eq_true, beq_iff_eq] at he
    obtain ⟨p, hp, ht, hn⟩ := he
    unfold RankOk at h
    rw [List.all_eq_true] at h
    have h2 := h (n, q) (lookupA_mem hq)
    rw [List.all_eq_true] at h2
    have h3 := h2 p hp
    rw [ht, hn] at h3
    simp at h3
    exact h3

theorem uploadedId_congr {st st' : PushState} {m : String}
    (h : lookupA m st'.saved = lookupA m st.saved) :
    uploadedId st' m = uploadedId st m := by
  unfold uploadedId
  rw [h]

theorem Mono_refl (st : PushState) : Mono st st :=
  ⟨⟨[], by simp⟩, fun _ _ h => h, fun _ _ h => h⟩

theorem Mono_trans {s1 s2 s3 : PushState} (h12 : Mono s1 s2) (h23 : Mono s2 s3) :
    Mono s1 s3 := by
  obtain ⟨⟨d1, ht1⟩, hu1, he1⟩ := h12
  obtain ⟨⟨d2, ht2⟩, hu2, he2⟩ := h23
  exact ⟨⟨d1 ++ d2, by rw [ht2, ht1, List.append_assoc]⟩,
    fun m j h => hu2 m j (hu1 m j h), fun n m h => he1 n m (he2 n m h)⟩

theorem ChangedFresh_refl (qex : Option String) (st : PushState) :
    ChangedFresh qex st st := fun m hm _ => absurd rfl hm

theorem ChangedFresh_trans {qex : Option String} {s1 s2 s3 : PushState}
    (h12 : ChangedFresh qex s1 s2) (h23 : ChangedFresh qex s2 s3)
    (hu23 : UploadedMono s2 s3) : ChangedFresh qex s1 s3 := by
  intro m hm hex
  by_cases h2 : lookupA m s2.saved = lookupA m s1.saved
  · have h3 : lookupA m s3.saved ≠ lookupA m s2.saved := fun h => hm (h.trans h2)
    obtain ⟨ha, hb⟩ := h23 m h3 hex
    exact ⟨(uploadedId_congr h2).symm.trans ha, hb⟩
  · obtain ⟨ha, hb⟩ := h12 m h2 hex
    refine ⟨ha, ?_⟩
    obtain ⟨j, hj⟩ := Option.isSome_iff_exists.1 hb
    exact Option.isSome_iff_exists.2 ⟨j, hu23 m j hj⟩

theorem ChangedFresh_weaken {s1 s2 : PushState} (qex : Option String)
    (h : ChangedFresh none s1 s2) : ChangedFresh qex s1 s2 :=
  fun m hm _ => h m hm (by simp)

theorem edgeB_congr {s s' : List (String × QueryData)}
    (h : ∀ n, paramsOf s' n = paramsOf s n) : ∀ n m, edgeB s' n m = edgeB s n m := by
  intro n m
  unfold edgeB
  have := h n
  unfold paramsOf at this
  cases hq' : lookupA n s' with
  | none =>
    rw [hq'] at this
    cases hq : lookupA n s with
    | none => rfl
    | some q => rw [hq] at this; simp at this
  | some q' =>
    rw [hq'] at this
    cases hq : lookupA n s with
    | none => rw [hq] at this; simp at this
    | some q =>
      rw [hq] at this
      simp at this
      simp [this]

theorem Inv_congr {E0 : String → Bool} {st st' : PushState}
    (ht : st'.trace = st.trace) (he : st'.existing = st.existing)
    (hu : ∀ n, uploadedB st' n = uploadedB st n) (h : Inv E0 st) : Inv E0 st' := by
  intro n
  obtain ⟨h1, h2, h3⟩ := h n
  rw [ht, he, hu n]
  exact ⟨h1, h2, h3⟩

/-! ### The visualization loop changes only the trace (by visualization
requests), the fresh-id counter, and the visualization list of its own
query's saved entry. -/

theorem uploadVizsAux_spec (snap : List (String × Nat)) (qname : String) (qid : Nat) :
    ∀ r k st st', uploadVizsAux snap qname qid r k st = st' →
      (∀ n, cntUpd n st'.trace = cntUpd n st.trace ∧
            cntCre n st'.trace = cntCre n st.trace) ∧
      TraceExt st st' ∧
      st'.existing = st.existing ∧
      (∀ m, m ≠ qname → lookupA m st'.saved = lookupA m st.saved) ∧
      (∀ q, lookupA qname st.saved = some q →
        ∃ q', lookupA qname st'.saved = some q' ∧
          q'.name = q.name ∧ q'.params = q.params ∧ q'.uploaded_id = q.uploaded_id) ∧
      (lookupA qname st.saved = none → st'.saved = st.saved) := by
  intro r
  induction r with
  | zero =>
    intro k st st' h
    rw [uploadVizsAux] at h
    subst h
    exact ⟨fun n => ⟨rfl, rfl⟩, ⟨[], by simp⟩, rfl, fun _ _ => rfl,
      fun q hq => ⟨q, hq, rfl, rfl, rfl⟩, fun _ => rfl⟩
  | succ r ih =>
    intro k st st' h
    have main :
        ∀ (q : QueryData), lookupA qname st.saved = some q →
          ∀ (op : RemoteOp) (nid : Nat) (newViz : SViz),
            (∀ n, isUpdFor n op = false ∧ isCreFor n op = false) →
            uploadVizsAux snap qname qid r (k + 1)
              (setSaved qname
                { q with visualizations := q.visualizations.set k newViz }
                { st with trace := st.trace ++ [op], nextId := nid }) = st' →
            (∀ n, cntUpd n st'.trace = cntUpd n st.trace ∧
                  cntCre n st'.trace = cntCre n st.trace) ∧
            TraceExt st st' ∧
            st'.existing = st.existing ∧
            (∀ m, m ≠ qname → lookupA m st'.saved = lookupA m st.saved) ∧
            (∀ q0, lookupA qname st.saved = some q0 →
              ∃ q', lookupA qname st'.saved = some q' ∧
                q'.name = q0.name ∧ q'.params = q0.params ∧
                q'.uploaded_id = q0.uploaded_id) ∧
            (lookupA qname st.saved = none → st'.saved = st.saved) := by
      intro q hq op nid newViz hop hrec
      set stm := setSaved qname
        { q with visualizations := q.visualizations.set k newViz }
        { st with trace := st.trace ++ [op], nextId := nid } with hstm
      obtain ⟨ihc, ⟨d, ihd⟩, ihe, ihm, ihq, _⟩ := ih (k + 1) stm st' hrec
      have hstmtr : stm.trace = st.trace ++ [op] := rfl
      have hstme : stm.existing = st.existing := rfl
      have hstml : ∀ m, m ≠ qname → lookupA m stm.saved = lookupA m st.saved := by
        intro m hm
        exact lookupA_setA_ne hm _ _
      have hstmq : lookupA qname stm.saved =
          some { q with visualizations := q.visualizations.set k newViz } :=
        lookupA_setA_self _ _ _
      refine ⟨?_, ?_, ?_, ?_, ?_, fun hn => by rw [hq] at hn; cases hn⟩
      · intro n
        obtain ⟨c1, c2⟩ := ihc n
        constructor
        · rw [c1, hstmtr]
          unfold cntUpd
          rw [List.countP_append]
          simp [List.countP, List.countP.go, (hop n).1]
        · rw [c2, hstmtr]
          unfold cntCre
          rw [List.countP_append]
          simp [List.countP, List.countP.go, (hop n).2]
      · exact ⟨[op] ++ d, by rw [ihd, hstmtr, List.append_assoc]⟩
      · rw [ihe, hstme]
      · intro m hm
        rw [ihm m hm, hstml m hm]
      · intro q0 hq0
        rw [hq] at hq0
        cases hq0
        obtain ⟨q', hq', h1, h2, h3⟩ := ihq _ hstmq
        exact ⟨q', hq', h1, h2, h3⟩
    rw [uploadVizsAux] at h
    split at h
    · rename_i hq
      subst h
      refine ⟨fun n => ⟨rfl, rfl⟩, ⟨[], by simp⟩, rfl, fun _ _ => rfl, ?_, fun _ => rfl⟩
      intro q hq'
      rw [hq] at hq'
      cases hq'
    · rename_i q hq
      split at h
      · rename_i hv
        subst h
        refine ⟨fun n => ⟨rfl, rfl⟩, ⟨[], by simp⟩, rfl, fun _ _ => rfl, ?_, fun _ => rfl⟩
        intro q0 hq0
        rw [hq] at hq0
        cases hq0
        exact ⟨_, hq, rfl, rfl, rfl⟩
      · rename_i viz hv
        set cols := viz.columns.map (fix_column_push (st.dashboards.map Prod.snd)) with hcols
        have h' :
            (match lookupA viz.name snap with
             | some vid =>
               uploadVizsAux snap qname qid r (k + 1)
                 (setSaved qname
                   { q with visualizations := q.visualizations.set k (SViz.mk viz.name cols (some qid) (some vid)) }
                   { st with trace := st.trace ++ [RemoteOp.updateViz vid viz.name] })
             | none =>
               uploadVizsAux snap qname qid r (k + 1)
                 (setSaved qname
                   { q with visualizations := q.visualizations.set k (SViz.mk viz.name cols (some qid) (some st.nextId)) }
                   { st with trace := st.trace ++ [RemoteOp.createViz qid viz.name], nextId := st.nextId + 1 })) = st' := h
        clear h
        cases hlv : lookupA viz.name snap with
        | some vid =>
          rw [hlv] at h'
          exact main q hq (RemoteOp.updateViz vid viz.name) st.nextId _
            (fun n => ⟨rfl, rfl⟩) h'
        | none =>
          rw [hlv] at h'
          exact main q hq (RemoteOp.createViz qid viz.name) (st.nextId + 1) _
            (fun n => ⟨rfl, rfl⟩) h'

theorem uploadVizsAux_uploadedId (snap : List (String × Nat)) (qname : String)
    (qid : Nat) (r k : Nat) (st st' : PushState)
    (h : uploadVizsAux snap qname qid r k st = st') :
    ∀ n, uploadedId st' n = uploadedId st n := by
  obtain ⟨_, _, _, hm, hqc, hnc⟩ := uploadVizsAux_spec snap qname qid r k st st' h
  intro n
  by_cases hn : n = qname
  · subst hn
    cases hq : lookupA n st.saved with
    | none =>
      have := hnc hq
      unfold uploadedId
      rw [this]
    | some q =>
      obtain ⟨q', hq', _, _, hu⟩ := hqc q hq
      unfold uploadedId
      rw [hq, hq']
      simp [hu]
  · exact uploadedId_congr (hm n hn)

theorem uploadVizsAux_paramsOf (snap : List (String × Nat)) (qname : String)
    (qid : Nat) (r k : Nat) (st st' : PushState)
    (h : uploadVizsAux snap qname qid r k st = st') :
    ∀ n, paramsOf st'.saved n = paramsOf st.saved n := by
  obtain ⟨_, _, _, hm, hqc, hnc⟩ := uploadVizsAux_spec snap qname qid r k st st' h
  intro n
  by_cases hn : n = qname
  · subst hn
    cases hq : lookupA n st.saved with
    | none =>
      have := hnc hq
      unfold paramsOf
      rw [this]
    | some q =>
      obtain ⟨q', hq', _, hp, _⟩ := hqc q hq
      unfold paramsOf
      rw [hq, hq']
      simp [hp]
  · unfold paramsOf
    rw [hm n hn]

/-! ### Helper lemmas for the dependency-resolution induction -/

theorem edgeB_intro {saved : List (String × QueryData)} {n m : String}
    {q : QueryData} {p : Param} (hq : lookupA n saved = some q)
    (hp : p ∈ q.params) (ht : p.ptype = "query") (hn : p.queryName = some m) :
    edgeB saved n m = true := by
  unfold edgeB
  rw [hq]
  simp only [List.any_eq_true, Bool.and_eq_true, beq_iff_eq]
  exact ⟨p, hp, ht, hn⟩

theorem uploadedId_setSaved {st : PushState} {qname : String} {q1 qmod : QueryData}
    (hq : lookupA qname st.saved = some q1) (hu : qmod.uploaded_id = q1.uploaded_id) :
    ∀ m, uploadedId (setSaved qname qmod st) m = uploadedId st m := by
  intro m
  by_cases hm : m = qname
  · subst hm
    unfold uploadedId setSaved
    simp only
    rw [lookupA_setA_self, hq]
    simp [hu]
  · exact uploadedId_congr (lookupA_setA_ne hm _ _)

/-- Rewriting one parameter to its resolved form (no `queryName` left)
removes edges and adds none. -/
theorem edgeB_setParam_shrink {st : PushState} {qname : String} {q1 : QueryData}
    {k : Nat} {p1 : Param} (hq : lookupA qname st.saved = some q1)
    (hp1 : p1.queryName = none) :
    ∀ n m, edgeB (setSaved qname { q1 with params := q1.params.set k p1 } st).saved n m = true →
      edgeB st.saved n m = true := by
  intro n m he
  by_cases hn : n = qname
  · subst hn
    unfold edgeB at he ⊢
    unfold setSaved at he
    simp only at he
    rw [lookupA_setA_self] at he
    rw [hq]
    simp only [List.any_eq_true, Bool.and_eq_true, beq_iff_eq] at he ⊢
    obtain ⟨p, hp, ht, hnm⟩ := he
    rcases List.mem_or_eq_of_mem_set hp with hmem | hpe
    · exact ⟨p, hmem, ht, hnm⟩
    · subst hpe
      rw [hp1] at hnm
      cases hnm
  · unfold edgeB at he ⊢
    unfold setSaved at he
    simp only at he
    rw [lookupA_setA_ne hn] at he
    exact he

/-- What the parameter-resolution loop guarantees, assuming the
recursive upload meets its contract: monotone state evolution, every
fresh upload strictly below the resolving query's rank (so the query
itself is never uploaded by its own dependency resolution), invariant
preservation, and the pointwise characterization of the resolved
parameter list. -/
theorem resolveParamsAux_spec (rank : String → Nat) (E0 : String → Bool)
    (uq : String → PushState → Option (Nat × PushState))
    (huq : UQSpec rank E0 uq) (qname : String) :
    ∀ r k st st'', resolveParamsAux uq qname r k st = some st'' →
      RankOkE st.saved rank → uploadedId st qname = none →
      Mono st st'' ∧ ChangedFresh (some qname) st st'' ∧
      (∀ m, uploadedId st m = none → (uploadedId st'' m).isSome → rank m < rank qname) ∧
      (Inv E0 st → Inv E0 st'') ∧
      (∀ q0, lookupA qname st.saved = some q0 →
        ∃ q'', lookupA qname st''.saved = some q'' ∧
          q''.name = q0.name ∧ q''.uploaded_id = q0.uploaded_id ∧
          q''.visualizations = q0.visualizations ∧
          q''.params.length = q0.params.length ∧
          (∀ j, j < k → q''.params.get? j = q0.params.get? j) ∧
          (∀ j p, k ≤ j → j < k + r → q0.params.get? j = some p →
            (p.ptype = "query" →
              ∃ d i2, p.queryName = some d ∧
                q''.params.get? j =
                  some { p with queryId := some i2, queryName := none } ∧
                uploadedId st'' d = some i2) ∧
            (p.ptype ≠ "query" → q''.params.get? j = some p))) := by
  intro r
  induction r with
  | zero =>
    intro k st st'' h hrk hup
    rw [resolveParamsAux] at h
    cases h
    refine ⟨Mono_refl st, ChangedFresh_refl _ st, ?_, fun hi => hi, ?_⟩
    · intro m h1 h2
      rw [h1] at h2
      cases h2
    · intro q0 hq0
      exact ⟨q0, hq0, rfl, rfl, rfl, rfl, fun _ _ => rfl,
        fun j p hkj hjr _ => absurd hjr (by omega)⟩
  | succ r ih =>
    intro k st st'' h hrk hup
    rw [resolveParamsAux] at h
    split at h
    · exact Option.noConfusion h
    · rename_i q hq
      split at h
      · exact Option.noConfusion h
      · rename_i p hp
        split at h
        · rename_i hty
          split at h
          · exact Option.noConfusion h
          · rename_i dep hqn
            split at h
            · exact Option.noConfusion h
            · rename_i depId st1 huqe
              split at h
              · exact Option.noConfusion h
              · rename_i q1 hq1
                split at h
                · exact Option.noConfusion h
                · rename_i pLive hpl
                  -- facts from the recursive upload of the dependency
                  have hedge : edgeB st.saved qname dep = true :=
                    edgeB_intro hq (List.get?_mem hp) hty hqn
                  have hrkdep : rank dep < rank qname := hrk _ _ hedge
                  obtain ⟨mono1, cf1, fb1, hupdep, inv1⟩ :=
                    huq dep st depId st1 huqe hrk
                  have hupq1 : uploadedId st1 qname = none := by
                    cases hcase : uploadedId st1 qname with
                    | none => rfl
                    | some j =>
                      have : rank qname ≤ rank dep :=
                        fb1 qname hup (by rw [hcase]; rfl)
                      omega
                  have hsame : lookupA qname st1.saved = lookupA qname st.saved := by
                    by_contra hne
                    obtain ⟨_, hb⟩ := cf1 qname hne (by simp)
                    rw [hupq1] at hb
                    cases hb
                  have hq1q : q1 = q := by
                    rw [hsame, hq] at hq1
                    exact (Option.some.inj hq1).symm
                  have hplp : pLive = p := by
                    rw [hq1q, hp] at hpl
                    exact (Option.some.inj hpl).symm
                  rw [hq1q, hplp] at h
                  have hq1' : lookupA qname st1.saved = some q := by
                    rw [hsame, hq]
                  -- the in-place rewrite of parameter k
                  set p1 : Param :=
                    { p with queryId := some depId, queryName := none } with hp1def
                  set qmod : QueryData := { q with params := q.params.set k p1 } with hqmod
                  set stm : PushState := setSaved qname qmod st1 with hstm
                  have hupstm : ∀ m, uploadedId stm m = uploadedId st1 m :=
                    uploadedId_setSaved hq1' rfl
                  have hedgestm : ∀ n m, edgeB stm.saved n m = true →
                      edgeB st1.saved n m = true :=
                    edgeB_setParam_shrink hq1' rfl
                  have hrk1 : RankOkE st1.saved rank :=
                    fun n m he => hrk n m (mono1.2.2 n m he)
                  have hrkm : RankOkE stm.saved rank :=
                    fun n m he => hrk1 n m (hedgestm n m he)
                  have hupqm : uploadedId stm qname = none := by
                    rw [hupstm qname]
                    exact hupq1
                  obtain ⟨mono2, cf2, fb2, inv2, char2⟩ := ih (k + 1) stm st'' h hrkm hupqm
                  have monostep : Mono st1 stm := by
                    refine ⟨⟨[], by simp [hstm, setSaved]⟩, ?_, ?_⟩
                    · intro m j hj
                      rw [hupstm m]
                      exact hj
                    · exact hedgestm
                  have cfstep : ChangedFresh (some qname) st1 stm := by
                    intro m hm hex
                    have hmq : m ≠ qname := fun he => hex (by rw [he])
                    exact absurd (lookupA_setA_ne hmq qmod st1.saved) hm
                  refine ⟨Mono_trans (Mono_trans mono1 monostep) mono2, ?_, ?_, ?_, ?_⟩
                  · exact ChangedFresh_trans
                      (ChangedFresh_trans (ChangedFresh_weaken _ cf1) cfstep monostep.2.1)
                      cf2 mono2.2.1
                  · intro m h1 h2
                    cases hcase : uploadedId st1 m with
                    | some j =>
                      have : rank m ≤ rank dep := fb1 m h1 (by rw [hcase]; rfl)
                      omega
                    | none =>
                      have hm2 : uploadedId stm m = none := by rw [hupstm m]; exact hcase
                      exact fb2 m hm2 h2
                  · intro hi
                    exact inv2 (@Inv_congr E0 st1 stm rfl rfl
                      (fun n => by unfold uploadedB; rw [hupstm n]) (inv1 hi))
                  · intro q0 hq0
                    have hq0q : q0 = q := by
                      rw [hq] at hq0
                      exact (Option.some.inj hq0).symm
                    rw [hq0q]
                    have hqstm : lookupA qname stm.saved = some qmod :=
                      lookupA_setA_self _ _ _
                    obtain ⟨q'', hq'', hn1, hn2, hn3, hn4, hpre, hsuf⟩ := char2 qmod hqstm
                    have hklen : k < q.params.length := by
                      rcases List.get?_eq_some.1 hp with ⟨hlt, _⟩
                      exact hlt
                    refine ⟨q'', hq'', hn1, hn2, hn3, ?_, ?_, ?_⟩
                    · rw [hn4]
                      simp [hqmod]
                    · intro j hj
                      rw [hpre j (by omega)]
                      simp only [hqmod]
                      exact List.get?_set_ne p1 q.params (by omega)
                    · intro j pj hkj hjr hpj
                      by_cases hjk : j = k
                      · subst hjk
                        have hpjp : pj = p := by
                          rw [hp] at hpj
                          exact (Option.some.inj hpj).symm
                        subst hpjp
                        have hgot : q''.params.get? j = some p1 := by
                          rw [hpre j (by omega)]
                          simp only [hqmod]
                          rw [List.get?_set_eq]
                          rw [hp]
                          rfl
                        constructor
                        · intro _
                          refine ⟨dep, depId, hqn, ?_, ?_⟩
                          · rw [hgot]
                          · have h1 : uploadedId stm dep = some depId := by
                              rw [hupstm dep]
                              exact hupdep
                            exact mono2.2.1 dep depId h1
                        · intro hne
                          exact absurd hty hne
                      · have hj1 : k + 1 ≤ j := by omega
                        have hqm : qmod.params.get? j = some pj := by
                          simp only [hqmod]
                          rw [List.get?_set_ne p1 q.params (by omega)]
                          exact hpj
                        exact hsuf j pj hj1 (by omega) hqm
        · rename_i hty
          obtain ⟨mono2, cf2, fb2, inv2, char2⟩ := ih (k + 1) st st'' h hrk hup
          refine ⟨mono2, cf2, fb2, inv2, ?_⟩
          intro q0 hq0
          have hq0q : q0 = q := by
            rw [hq] at hq0
            exact (Option.some.inj hq0).symm
          subst hq0q
          obtain ⟨q'', hq'', hn1, hn2, hn3, hn4, hpre, hsuf⟩ := char2 q0 hq
          refine ⟨q'', hq'', hn1, hn2, hn3, hn4, ?_, ?_⟩
          · intro j hj
            exact hpre j (by omega)
          · intro j pj hkj hjr hpj
            by_cases hjk : j = k
            · subst hjk
              have hpjp : pj = p := by
                rw [hp] at hpj
                exact (Option.some.inj hpj).symm
              subst hpjp
              constructor
              · intro hty2
                exact absurd hty2 hty
              · intro _
                rw [hpre j (by omega)]
                exact hpj
            · exact hsuf j pj (by omega) (by omega) hpj

/-! ### What the tail of `upload_query` (update, memoize, visualization
loop) does to the state. -/

theorem uploadQueryTail_spec (qname : String) (st2 st' : PushState) (i : Nat)
    (h : uploadQueryTail qname st2 = some (i, st')) :
    ∃ rq q2, lookupA qname st2.existing = some rq ∧
      lookupA qname st2.saved = some q2 ∧ i = rq.id ∧
      (∃ Δv, st'.trace = st2.trace ++ RemoteOp.updateQuery qname rq.id q2 :: Δv) ∧
      (∀ n, cntUpd n st'.trace = cntUpd n st2.trace + (if qname = n then 1 else 0) ∧
            cntCre n st'.trace = cntCre n st2.trace) ∧
      st'.existing = st2.existing ∧
      (∀ m, m ≠ qname → lookupA m st'.saved = lookupA m st2.saved) ∧
      uploadedId st' qname = some rq.id ∧
      (∀ n, paramsOf st'.saved n = paramsOf st2.saved n) := by
  rw [uploadQueryTail] at h
  split at h
  · exact Option.noConfusion h
  · rename_i rq hrq
    split at h
    · exact Option.noConfusion h
    · rename_i q2 hq2
      simp only [Option.some.injEq, Prod.mk.injEq] at h
      obtain ⟨hi, hst⟩ := h
      set q4 : QueryData := { q2 with uploaded_id := some rq.id } with hq4
      set st4 : PushState := setSaved qname q4
        { st2 with trace := st2.trace ++ [RemoteOp.updateQuery qname rq.id q2] } with hst4
      obtain ⟨vcnt, ⟨dv, hdv⟩, vex, vlk, vqc, _⟩ :=
        uploadVizsAux_spec rq.vizIds qname rq.id q2.visualizations.length 0 st4 st' hst
      have hq4lk : lookupA qname st4.saved = some q4 := lookupA_setA_self _ _ _
      have h4tr : st4.trace = st2.trace ++ [RemoteOp.updateQuery qname rq.id q2] := rfl
      have h4ex : st4.existing = st2.existing := rfl
      have h4lk : ∀ m, m ≠ qname → lookupA m st4.saved = lookupA m st2.saved :=
        fun m hm => lookupA_setA_ne hm _ _
      refine ⟨rq, q2, hrq, hq2, hi.symm, ⟨dv, ?_⟩, ?_, ?_, ?_, ?_, ?_⟩
      · rw [hdv, h4tr, List.append_assoc]
        rfl
      · intro n
        obtain ⟨c1, c2⟩ := vcnt n
        constructor
        · rw [c1, h4tr]
          unfold cntUpd
          rw [List.countP_append]
          simp [List.countP, List.countP.go, isUpdFor]
        · rw [c2, h4tr]
          unfold cntCre
          rw [List.countP_append]
          simp [List.countP, List.countP.go, isCreFor]
      · rw [vex, h4ex]
      · intro m hm
        rw [vlk m hm, h4lk m hm]
      · obtain ⟨q', hq', _, _, hu⟩ := vqc q4 hq4lk
        unfold uploadedId
        rw [hq']
        simp [hu, hq4]
      · intro n
        have hv := uploadVizsAux_paramsOf rq.vizIds qname rq.id
          q2.visualizations.length 0 st4 st' hst n
        rw [hv]
        by_cases hn : n = qname
        · subst hn
          unfold paramsOf
          rw [hq4lk, hq2]
          simp [hq4]
        · unfold paramsOf
          rw [h4lk n hn]

/-! ### The contract of `upload_query` itself, by induction on fuel. -/

theorem upload_query_spec (rank : String → Nat) (E0 : String → Bool) :
    ∀ fuel, UQSpec rank E0 (upload_query fuel) := by
  intro fuel
  induction fuel with
  | zero =>
    intro qname st i st' h
    exact Option.noConfusion h
  | succ fuel ih =>
    intro qname st i st' h hrk
    rw [upload_query] at h
    split at h
    · exact Option.noConfusion h
    · rename_i q hq
      split at h
      · rename_i i0 hu0
        simp only [Option.some.injEq, Prod.mk.injEq] at h
        obtain ⟨hi, hst⟩ := h
        subst hst
        refine ⟨Mono_refl st, ChangedFresh_refl _ st, ?_, ?_, fun hi2 => hi2⟩
        · intro m h1 h2
          rw [h1] at h2
          cases h2
        · unfold uploadedId
          rw [hq]
          simp [hu0, hi]
      · rename_i hu0
        split at h
        · exact Option.noConfusion h
        · rename_i st1 hrp
          split at h
          · exact Option.noConfusion h
          · rename_i q1 hq1
            -- the parameter-resolution leg
            have hup : uploadedId st qname = none := by
              unfold uploadedId
              rw [hq]
              simp [hu0]
            obtain ⟨mono1, cf1, fb1, inv1, char1⟩ :=
              resolveParamsAux_spec rank E0 (upload_query fuel) ih qname
                q.params.length 0 st st1 hrp hrk hup
            have hupq1 : uploadedId st1 qname = none := by
              cases hcase : uploadedId st1 qname with
              | none => rfl
              | some j =>
                have : rank qname < rank qname :=
                  fb1 qname hup (by rw [hcase]; rfl)
                omega
            have hrk1 : RankOkE st1.saved rank :=
              fun n m he => hrk n m (mono1.2.2 n m he)
            -- the create-if-missing step and the tail
            have tail :
                ∀ (st2 : PushState) (created : Bool),
                  uploadQueryTail qname st2 = some (i, st') →
                  st2.saved = st1.saved →
                  (∃ Δc, st2.trace = st1.trace ++ Δc) →
                  (∀ n, cntUpd n st2.trace = cntUpd n st1.trace) →
                  (∀ n, cntCre n st2.trace =
                    cntCre n st1.trace + (if created = true ∧ qname = n then 1 else 0)) →
                  (created = !(lookupA qname st1.existing).isSome) →
                  ((lookupA qname st2.existing).isSome = true) →
                  (∀ m, m ≠ qname →
                    (lookupA m st2.existing).isSome = (lookupA m st1.existing).isSome) →
                  Mono st st' ∧ ChangedFresh none st st' ∧
                  (∀ m, uploadedId st m = none → (uploadedId st' m).isSome →
                    rank m ≤ rank qname) ∧
                  uploadedId st' qname = some i ∧
                  (Inv E0 st → Inv E0 st') := by
              intro st2 created ht hsav htrc hcU hcC hcr hexq hexo
              obtain ⟨Δc, hΔc⟩ := htrc
              obtain ⟨rq, q2, hrq, hq2, hi, ⟨dv, hdv⟩, tcnt, tex, tlk, tqid, tpar⟩ :=
                uploadQueryTail_spec qname st2 st' i ht
              have hlk1 : ∀ m, m ≠ qname → lookupA m st'.saved = lookupA m st1.saved := by
                intro m hm
                rw [tlk m hm, hsav]
              have hupo : ∀ m, m ≠ qname → uploadedId st' m = uploadedId st1 m := by
                intro m hm
                exact uploadedId_congr (by rw [hlk1 m hm])
              have hpar1 : ∀ n, paramsOf st'.saved n = paramsOf st1.saved n := by
                intro n
                rw [tpar n, hsav]
              have hedge1 : ∀ n m, edgeB st'.saved n m = edgeB st1.saved n m :=
                edgeB_congr hpar1
              refine ⟨?_, ?_, ?_, ?_, ?_⟩
              · refine Mono_trans mono1
                  ⟨⟨Δc ++ (RemoteOp.updateQuery qname rq.id q2 :: dv), ?_⟩, ?_, ?_⟩
                · rw [hdv, hΔc, List.append_assoc]
                · intro m j hj
                  by_cases hm : m = qname
                  · subst hm
                    rw [hupq1] at hj
                    cases hj
                  · rw [hupo m hm]
                    exact hj
                · intro n m he
                  rw [hedge1 n m] at he
                  exact he
              · intro m hm _
                by_cases hmq : m = qname
                · subst hmq
                  refine ⟨hup, ?_⟩
                  rw [tqid]
                  rfl
                · have hne1 : lookupA m st1.saved ≠ lookupA m st.saved := by
                    intro he
                    exact hm ((hlk1 m hmq).trans he)
                  obtain ⟨ha, hb⟩ := cf1 m hne1 (by simp [hmq])
                  refine ⟨ha, ?_⟩
                  rw [hupo m hmq]
                  exact hb
              · intro m h1 h2
                by_cases hmq : m = qname
                · subst hmq
                  exact le_refl _
                · rw [hupo m hmq] at h2
                  have := fb1 m h1 h2
                  omega
              · rw [tqid, ← hi]
              · intro hinv
                have hinv1 : Inv E0 st1 := inv1 hinv
                intro n
                obtain ⟨i1, i2, i3⟩ := hinv1 n
                by_cases hn : n = qname
                · subst hn
                  have hub1 : uploadedB st1 n = false := by
                    unfold uploadedB
                    rw [hupq1]
                    rfl
                  have hub' : uploadedB st' n = true := by
                    unfold uploadedB
                    rw [tqid]
                    rfl
                  rw [hub1] at i1 i2 i3
                  simp only [Bool.false_and, Bool.or_false, if_false] at i1 i2 i3
                  have hcrE : created = !E0 n := by
                    rw [hcr, i3]
                  refine ⟨?_, ?_, ?_⟩
                  · rw [(tcnt n).1, hcU n, i1, hub']
                    simp
                  · rw [(tcnt n).2, hcC n, i2, hub']
                    by_cases he0 : E0 n
                    · rw [hcrE]
                      simp [he0]
                    · rw [hcrE]
                      simp [he0]
                  · rw [tex, hexq, hub']
                    simp
                · have hubeq : uploadedB st' n = uploadedB st1 n := by
                    unfold uploadedB
                    rw [hupo n hn]
                  refine ⟨?_, ?_, ?_⟩
                  · rw [(tcnt n).1, hcU n, hubeq]
                    rw [if_neg (fun he : qname = n => hn he.symm), Nat.add_zero]
                    exact i1
                  · rw [(tcnt n).2, hcC n, hubeq]
                    rw [if_neg (fun hc : created = true ∧ qname = n => hn hc.2.symm),
                      Nat.add_zero]
                    exact i2
                  · rw [tex, hexo n hn, hubeq]
                    exact i3
            split at h
            · rename_i rq0 hex
              refine tail st1 false h rfl ⟨[], by simp⟩ (fun n => rfl) ?_ ?_ ?_ (fun m hm => rfl)
              · intro n
                simp
              · rw [hex]
                rfl
              · rw [hex]
                rfl
            · rename_i hex
              refine tail _ true h rfl ⟨[RemoteOp.createQuery qname q1], rfl⟩ ?_ ?_ ?_ ?_ ?_
              · intro n
                unfold cntUpd
                rw [List.countP_append]
                simp [List.countP, List.countP.go, isUpdFor]
              · intro n
                unfold cntCre
                rw [List.countP_append]
                simp [List.countP, List.countP.go, isCreFor]
              · rw [hex]
                rfl
              · simp only
                rw [lookupA_setA_self]
                rfl
              · intro m hm
                simp only
                rw [lookupA_setA_ne hm]

/-! ### The whole-run fold `upload_queries` -/

theorem upload_queries_spec (rank : String → Nat) (E0 : String → Bool) (fuel : Nat) :
    ∀ names st st', upload_queries fuel names st = some st' →
      RankOkE st.saved rank →
      Mono st st' ∧ (Inv E0 st → Inv E0 st') ∧
      (∀ n ∈ names, (uploadedId st' n).isSome) := by
  intro names
  induction names with
  | nil =>
    intro st st' h _
    rw [upload_queries] at h
    cases h
    exact ⟨Mono_refl st, fun hi => hi, by simp⟩
  | cons n t iht =>
    intro st st' h hrk
    rw [upload_queries] at h
    split at h
    · exact Option.noConfusion h
    · rename_i i st1 hup
      obtain ⟨mono1, _, _, hid1, inv1⟩ :=
        upload_query_spec rank E0 fuel n st i st1 hup hrk
      have hrk1 : RankOkE st1.saved rank :=
        fun a b he => hrk a b (mono1.2.2 a b he)
      obtain ⟨mono2, inv2, hall⟩ := iht st1 st' h hrk1
      refine ⟨Mono_trans mono1 mono2, fun hi => inv2 (inv1 hi), ?_⟩
      intro m hm
      rcases List.mem_cons.1 hm with he | ht2
      · subst he
        have := mono2.2.1 m i hid1
        rw [this]
        rfl
      · exact hall m ht2

theorem uploadedB_false_of_unuploaded {st : PushState}
    (h : ∀ pr ∈ st.saved, pr.2.uploaded_id = none) (n : String) :
    uploadedB st n = false := by
  unfold uploadedB uploadedId
  cases hq : lookupA n st.saved with
  | none => rfl
  | some q =>
    have h2 : q.uploaded_id = none := h (n, q) (lookupA_mem hq)
    simp [h2]

/-- At the start of a push run (empty trace, no `uploaded_id` set by a
previous run — the fetch writer never persists one) the invariant holds
with `E0` the names existing remotely. -/
theorem Inv_init {st : PushState} (ht : st.trace = [])
    (h : ∀ pr ∈ st.saved, pr.2.uploaded_id = none) :
    Inv (fun n => (lookupA n st.existing).isSome) st := by
  intro n
  have hu := uploadedB_false_of_unuploaded h n
  rw [ht, hu]
  refine ⟨rfl, rfl, by simp⟩

/-! ### Claim theorems: the upload engine -/

/-- C1.  For a saved query Q with a query-typed parameter referencing
Q2 (the reference graph being acyclic, witnessed by `rank`, and the run
succeeding: every referenced name present), `upload_query` obtains Q2's
remote id strictly before issuing Q's own update: in the resulting
trace, the one update request for Q2 precedes Q's update request, and
the update payload for Q carries `queryId = ` Q2's memoized remote id in
place of the name reference. -/
theorem C1_dependency_ordering (rank : String → Nat) (E0 : String → Bool)
    (fuel : Nat) (qname q2name : String) (st st' : PushState)
    (qd : QueryData) (k : Nat) (p : Param) (i : Nat)
    (hrank : RankOk st.saved rank) (hinv : Inv E0 st)
    (hq : lookupA qname st.saved = some qd) (hu : qd.uploaded_id = none)
    (hp : qd.params.get? k = some p) (hty : p.ptype = "query")
    (hqn : p.queryName = some q2name)
    (hrun : upload_query fuel qname st = some (i, st')) :
    ∃ i2, uploadedId st' q2name = some i2 ∧
      ∃ l1 qid payload l2,
        st'.trace = l1 ++ RemoteOp.updateQuery qname qid payload :: l2 ∧
        cntUpd q2name l1 = 1 ∧ cntUpd qname l1 = 0 ∧
        payload.params.get? k =
          some { p with queryId := some i2, queryName := none } := by
  have hrkE : RankOkE st.saved rank := rankOk_to_E hrank
  cases fuel with
  | zero => exact Option.noConfusion hrun
  | succ fuel =>
    rw [upload_query] at hrun
    split at hrun
    · exact Option.noConfusion hrun
    · rename_i q0 hq0
      have hq0d : q0 = qd := by
        rw [hq] at hq0
        exact (Option.some.inj hq0).symm
      rw [hq0d] at hrun
      clear hq0
      split at hrun
      · rename_i i0 hui
        rw [hu] at hui
        cases hui
      · split at hrun
        · exact Option.noConfusion hrun
        · rename_i st1 hrp
          split at hrun
          · exact Option.noConfusion hrun
          · rename_i q1 hq1
            have hupst : uploadedId st qname = none := by
              unfold uploadedId
              rw [hq]
              simp [hu]
            obtain ⟨mono1, cf1, fb1, inv1, char1⟩ :=
              resolveParamsAux_spec rank E0 (upload_query fuel)
                (upload_query_spec rank E0 fuel) qname
                qd.params.length 0 st st1 hrp hrkE hupst
            have hinv1 : Inv E0 st1 := inv1 hinv
            have hupq1 : uploadedId st1 qname = none := by
              cases hcase : uploadedId st1 qname with
              | none => rfl
              | some j =>
                have : rank qname < rank qname := fb1 qname hupst (by rw [hcase]; rfl)
                omega
            obtain ⟨q'', hq'', _, _, _, hlen, _, hsuf⟩ := char1 qd hq
            have hklen : k < qd.params.length := by
              rcases List.get?_eq_some.1 hp with ⟨hlt, _⟩
              exact hlt
            obtain ⟨hqch, _⟩ := hsuf k p (by omega) (by omega) hp
            obtain ⟨d, i2, hdq, hkq, hdup⟩ := hqch hty
            have hdq2 : q2name = d := by
              rw [hqn] at hdq
              exact Option.some.inj hdq
            subst hdq2
            have hq1q'' : q1 = q'' := by
              rw [hq1] at hq''
              exact Option.some.inj hq''
            -- the tail: both branches end in uploadQueryTail on a state whose
            -- trace extends st1's by create requests only and whose saved dict
            -- is st1's
            have tail :
                ∀ st2 : PushState, uploadQueryTail qname st2 = some (i, st') →
                  st2.saved = st1.saved →
                  (∀ n, cntUpd n st2.trace = cntUpd n st1.trace) →
                  ∃ i2', uploadedId st' q2name = some i2' ∧ i2' = i2 ∧
                    ∃ l1 qid payload l2,
                      st'.trace = l1 ++ RemoteOp.updateQuery qname qid payload :: l2 ∧
                      cntUpd q2name l1 = 1 ∧ cntUpd qname l1 = 0 ∧
                      payload.params.get? k =
                        some { p with queryId := some i2, queryName := none } := by
              intro st2 ht hsav hcU
              obtain ⟨rq, q2, hrq, hq2, hieq, ⟨dv, hdv⟩, tcnt, _, tlk, tqid, _⟩ :=
                uploadQueryTail_spec qname st2 st' i ht
              have hq2q1 : q2 = q1 := by
                rw [hsav, hq1] at hq2
                exact (Option.some.inj hq2).symm
              have hq2ne : q2name ≠ qname := by
                intro he
                have hedge : edgeB st.saved qname q2name = true :=
                  edgeB_intro hq (List.get?_mem hp) hty hqn
                have := hrkE qname q2name hedge
                rw [he] at this
                omega
              have hup2 : uploadedId st' q2name = some i2 := by
                have hstep : uploadedId st2 q2name = some i2 := by
                  have : uploadedId st2 q2name = uploadedId st1 q2name :=
                    uploadedId_congr (by rw [hsav])
                  rw [this]
                  exact hdup
                have := tlk q2name hq2ne
                have hcongr : uploadedId st' q2name = uploadedId st2 q2name :=
                  uploadedId_congr this
                rw [hcongr]
                exact hstep
              refine ⟨i2, hup2, rfl, st2.trace, rq.id, q2, dv, hdv, ?_, ?_, ?_⟩
              · rw [hcU q2name]
                obtain ⟨j1, _, _⟩ := hinv1 q2name
                rw [j1]
                have : uploadedB st1 q2name = true := by
                  unfold uploadedB
                  rw [hdup]
                  rfl
                rw [this]
                simp
              · rw [hcU qname]
                obtain ⟨j1, _, _⟩ := hinv1 qname
                rw [j1]
                have : uploadedB st1 qname = false := by
                  unfold uploadedB
                  rw [hupq1]
                  rfl
                rw [this]
                simp
              · rw [hq2q1, hq1q'']
                exact hkq
            split at hrun
            · rename_i rq0 hex
              obtain ⟨i2', h1, h2, rest⟩ := tail st1 hrun rfl (fun n => rfl)
              subst h2
              exact ⟨i2', h1, rest⟩
            · rename_i hex
              obtain ⟨i2', h1, h2, rest⟩ := tail _ hrun rfl (fun n => by
                unfold cntUpd
                rw [List.countP_append]
                simp [List.countP, List.countP.go, isUpdFor])
              subst h2
              exact ⟨i2', h1, rest⟩

/-- C2.  Over a whole run of `upload_queries` started from a fresh
state (empty trace, no `uploaded_id` cached), every saved query receives
exactly one update request, receives a create request exactly when no
remote query of that name pre-existed, and any later invocation of
`upload_query` on it returns the memoized id immediately with the state
(and hence the trace of issued requests) unchanged. -/
theorem C2_upload_memoized_once (rank : String → Nat) (fuel : Nat)
    (st0 st' : PushState)
    (hrank : RankOk st0.saved rank)
    (htr : st0.trace = [])
    (hinit : ∀ pr ∈ st0.saved, pr.2.uploaded_id = none)
    (hrun : upload_queries fuel (st0.saved.map Prod.fst) st0 = some st') :
    ∀ n q, lookupA n st0.saved = some q →
      cntUpd n st'.trace = 1 ∧
      cntCre n st'.trace = (if (lookupA n st0.existing).isSome then 0 else 1) ∧
      ∃ i, uploadedId st' n = some i ∧
        ∀ fuel', upload_query (fuel' + 1) n st' = some (i, st') := by
  intro n q hq
  obtain ⟨_, invp, hall⟩ :=
    upload_queries_spec rank (fun m => (lookupA m st0.existing).isSome) fuel
      (st0.saved.map Prod.fst) st0 st' hrun (rankOk_to_E hrank)
  have hinv' := invp (Inv_init htr hinit)
  have hsome := hall n (mem_map_fst_of_lookupA hq)
  obtain ⟨i, hi⟩ := Option.isSome_iff_exists.1 hsome
  have hub : uploadedB st' n = true := by
    unfold uploadedB
    rw [hi]
    rfl
  obtain ⟨h1, h2, _⟩ := hinv' n
  rw [hub] at h1 h2
  refine ⟨by rw [h1]; simp, ?_, i, hi, ?_⟩
  · rw [h2]
    by_cases he : (lookupA n st0.existing).isSome = true
    · simp [he]
    · simp [he]
  · intro fuel'
    have hq' : ∃ qv, lookupA n st'.saved = some qv ∧ qv.uploaded_id = some i := by
      unfold uploadedId at hi
      cases hl : lookupA n st'.saved with
      | none => rw [hl] at hi; cases hi
      | some qv =>
        rw [hl] at hi
        exact ⟨qv, rfl, hi⟩
    obtain ⟨qv, hqv, hqu⟩ := hq'
    rw [upload_query]
    rw [hqv]
    simp [hqu]

theorem C1_dependency_ordering_witness :
    RankOk wStart.saved wRank ∧
    (∃ i2, uploadedId wC1res.2 "B" = some i2 ∧
      ∃ l1 qid payload l2,
        wC1res.2.trace = l1 ++ RemoteOp.updateQuery "A" qid payload :: l2 ∧
        cntUpd "B" l1 = 1 ∧ cntUpd "A" l1 = 0 ∧
        payload.params.get? 0 =
          some { wParam with queryId := some i2, queryName := none }) :=
  ⟨by unfold RankOk; decide,
   C1_dependency_ordering wRank (fun n => (lookupA n wStart.existing).isSome) 2
     "A" "B" wStart wC1res.2 wQA 0 wParam wC1res.1 (by unfold RankOk; decide)
     (Inv_init rfl (by decide)) (by decide) (by decide) (by decide) (by decide)
     (by decide) rfl⟩

theorem C2_upload_memoized_once_witness :
    cntUpd "A" wRun.trace = 1 ∧
    cntCre "A" wRun.trace = (if (lookupA "A" wStart.existing).isSome then 0 else 1) ∧
    uploadedId wRun "A" = some 100 ∧
    upload_query 1 "A" wRun = some (100, wRun) := by
  obtain ⟨h1, h2, i, hi, hm⟩ :=
    C2_upload_memoized_once wRank 3 wStart wRun (by unfold RankOk; decide) rfl
      (by decide) rfl "A" wQA (by decide)
  have hi100 : i = 100 := by
    have h100 : uploadedId wRun "A" = some 100 := by decide
    rw [h100] at hi
    exact (Option.some.inj hi).symm
  subst hi100
  exact ⟨h1, h2, hi, hm 0⟩

/-! ### The dashboard reconciler: characterization lemmas -/

theorem widgetStatus_congr {st st' : PushState} (h : st'.saved = st.saved)
    (w : SWidget) : widgetStatus st' w = widgetStatus st w := by
  unfold widgetStatus
  simp only [h]

theorem widgetOp_congr {st st' : PushState} (h : st'.saved = st.saved)
    (dashId : Nat) (w : SWidget) : widgetOp st' dashId w = widgetOp st dashId w := by
  unfold widgetOp
  simp only [h]

theorem dashOps_congr {st st' : PushState} (hs : st'.saved = st.saved)
    (hd : st'.dashboards = st.dashboards) (d : SDashboard) :
    dashOps st' d = dashOps st d := by
  unfold dashOps
  simp only [hs, hd]
  cases lookupA d.name st.dashboards with
  | none => rfl
  | some rd =>
    have hw : widgetOp st' rd.id = widgetOp st rd.id :=
      funext (widgetOp_congr hs rd.id)
    show List.map (fun w => RemoteOp.deleteWidget w.id) rd.widgets ++
        List.filterMap (widgetOp st' rd.id) d.widgets =
      List.map (fun w => RemoteOp.deleteWidget w.id) rd.widgets ++
        List.filterMap (widgetOp st rd.id) d.widgets
    rw [hw]

theorem dashReady_congr {st st' : PushState} (hd : st'.dashboards = st.dashboards)
    (d : SDashboard) : dashReady st' d = dashReady st d := by
  unfold dashReady
  simp only [hd]

theorem noAborts_congr {st st' : PushState} (hs : st'.saved = st.saved)
    (d : SDashboard) : noAborts st' d = noAborts st d := by
  unfold noAborts
  congr 1
  exact funext (fun w => by rw [widgetStatus_congr hs])

theorem anyFailure_congr {st st' : PushState} (hs : st'.saved = st.saved)
    (ds : List SDashboard) : anyFailure st' ds = anyFailure st ds := by
  unfold anyFailure
  congr 1
  exact funext (fun d => by
    congr 1
    exact funext (fun w => by rw [widgetStatus_congr hs]))

theorem addWidget_eq (dashId : Nat) (w : SWidget) (e : Bool) (st : PushState)
    (h : widgetStatus st w ≠ none) :
    addWidget dashId w e st =
      some (e || (widgetStatus st w == some false),
        { st with trace := st.trace ++ (widgetOp st dashId w).toList }) := by
  cases hv : w.visualization with
  | none => simp [widgetStatus, hv] at h
  | some ref =>
    cases hq : lookupA ref.queryName st.saved with
    | none => simp [widgetStatus, hv, hq] at h
    | some q =>
      cases hf : q.visualizations.find? (fun v => v.name == ref.name) with
      | none => simp [addWidget, widgetStatus, widgetOp, hv, hq, hf]
      | some viz =>
        cases hu : viz.uploaded_id with
        | none => simp [widgetStatus, hv, hq, hf, hu] at h
        | some vid => simp [addWidget, widgetStatus, widgetOp, hv, hq, hf, hu]

theorem addWidgets_eq (dashId : Nat) :
    ∀ (ws : List SWidget) (e : Bool) (st : PushState),
      (∀ w ∈ ws, widgetStatus st w ≠ none) →
      addWidgets dashId ws e st =
        some (e || ws.any (fun w => widgetStatus st w == some false),
          { st with trace := st.trace ++ ws.filterMap (widgetOp st dashId) }) := by
  intro ws
  induction ws with
  | nil =>
    intro e st _
    simp [addWidgets]
  | cons w ws ih =>
    intro e st h
    rw [addWidgets, addWidget_eq dashId w e st (h w (List.mem_cons_self w ws))]
    set st1 : PushState :=
      { st with trace := st.trace ++ (widgetOp st dashId w).toList } with hst1
    show addWidgets dashId ws (e || (widgetStatus st w == some false)) st1 = _
    have hsv : st1.saved = st.saved := rfl
    have hco : ∀ w', widgetStatus st1 w' = widgetStatus st w' :=
      widgetStatus_congr hsv
    have hih : addWidgets dashId ws (e || (widgetStatus st w == some false)) st1 =
        some ((e || (widgetStatus st w == some false)) ||
            ws.any (fun w' => widgetStatus st w' == some false),
          { st1 with trace := st1.trace ++ ws.filterMap (widgetOp st dashId) }) :=
      ih _ st1 (fun w' hw => by rw [hco w']; exact h w' (List.mem_cons_of_mem w hw))
    rw [hih]
    have htr : st1.trace ++ ws.filterMap (widgetOp st dashId) =
        st.trace ++ (w :: ws).filterMap (widgetOp st dashId) := by
      simp only [hst1]
      rw [List.filterMap_cons]
      cases ho : widgetOp st dashId w with
      | none => simp
      | some op => simp
    rw [htr]
    have hbool : (e || (w :: ws).any (fun w' => widgetStatus st w' == some false)) =
        ((e || (widgetStatus st w == some false)) ||
          ws.any (fun w' => widgetStatus st w' == some false)) := by
      rw [List.any_cons, Bool.or_assoc]
    rw [hbool]

theorem deleteWidgets_eq :
    ∀ (ws : List RWidget) (st : PushState),
      (∀ w ∈ ws, w.viz.isSome = true) →
      deleteWidgets ws st =
        some { st with trace := st.trace ++ ws.map (fun w => RemoteOp.deleteWidget w.id) } := by
  intro ws
  induction ws with
  | nil =>
    intro st _
    simp [deleteWidgets]
  | cons w ws ih =>
    intro st h
    rw [deleteWidgets]
    obtain ⟨v, hv⟩ := Option.isSome_iff_exists.1 (h w (List.mem_cons_self w ws))
    rw [hv]
    rw [ih _ (fun w' hw => h w' (List.mem_cons_of_mem w hw))]
    simp

theorem updateDashboardsAux_eq :
    ∀ (ds : List SDashboard) (e : Bool) (st : PushState),
      (∀ d ∈ ds, dashReady st d = true) →
      (∀ d ∈ ds, noAborts st d = true) →
      updateDashboardsAux ds e st =
        some (e || anyFailure st ds,
          { st with trace := st.trace ++ (ds.map (dashOps st)).join }) := by
  intro ds
  induction ds with
  | nil =>
    intro e st _ _
    simp [updateDashboardsAux, anyFailure]
  | cons d ds ih =>
    intro e st hr ha
    rw [updateDashboardsAux]
    cases hrd : lookupA d.name st.dashboards with
    | none =>
      have hrd0 := hr d (List.mem_cons_self d ds)
      unfold dashReady at hrd0
      rw [hrd] at hrd0
      cases hrd0
    | some rd =>
      have hrd0 := hr d (List.mem_cons_self d ds)
      unfold dashReady at hrd0
      rw [hrd] at hrd0
      have hdel := deleteWidgets_eq rd.widgets st (List.all_eq_true.1 hrd0)
      set st1 : PushState :=
        { st with trace := st.trace ++ rd.widgets.map (fun w => RemoteOp.deleteWidget w.id) } with hst1
      show (match deleteWidgets rd.widgets st with
            | none => none
            | some st1 =>
              match addWidgets rd.id d.widgets e st1 with
              | none => none
              | some (e1, st2) => updateDashboardsAux ds e1 st2) = _
      rw [hdel]
      show (match addWidgets rd.id d.widgets e st1 with
            | none => none
            | some (e1, st2) => updateDashboardsAux ds e1 st2) = _
      have hsv1 : st1.saved = st.saved := rfl
      have ha0 : d.widgets.all (fun w => widgetStatus st w != none) = true :=
        ha d (List.mem_cons_self d ds)
      have hadd := addWidgets_eq rd.id d.widgets e st1 (fun w hw => by
        rw [widgetStatus_congr hsv1]
        have := List.all_eq_true.1 ha0 w hw
        simpa using this)
      rw [hadd]
      set st2 : PushState :=
        { st1 with trace := st1.trace ++ d.widgets.filterMap (widgetOp st1 rd.id) } with hst2
      show updateDashboardsAux ds
        (e || d.widgets.any (fun w => widgetStatus st1 w == some false)) st2 = _
      have hsv2 : st2.saved = st.saved := rfl
      have hdb2 : st2.dashboards = st.dashboards := rfl
      have hih : updateDashboardsAux ds
          (e || d.widgets.any (fun w => widgetStatus st1 w == some false)) st2 =
          some ((e || d.widgets.any (fun w => widgetStatus st w == some false)) ||
              anyFailure st ds,
            { st2 with trace := st2.trace ++ (ds.map (dashOps st)).join }) :=
        ih _ st2
          (fun d' hd => by rw [dashReady_congr hdb2]; exact hr d' (List.mem_cons_of_mem d hd))
          (fun d' hd => by rw [noAborts_congr hsv2]; exact ha d' (List.mem_cons_of_mem d hd))
      rw [hih]
      have hdo : dashOps st d =
          rd.widgets.map (fun w => RemoteOp.deleteWidget w.id) ++
            d.widgets.filterMap (widgetOp st rd.id) := by
        unfold dashOps
        rw [hrd]
      have htr2 : st2.trace ++ (ds.map (dashOps st)).join =
          st.trace ++ ((d :: ds).map (dashOps st)).join := by
        show (st.trace ++ rd.widgets.map (fun w => RemoteOp.deleteWidget w.id)) ++
            d.widgets.filterMap (widgetOp st rd.id) ++ (ds.map (dashOps st)).join = _
        simp [hdo, List.append_assoc]
      rw [htr2]
      have hbool : (e || anyFailure st (d :: ds)) =
          ((e || d.widgets.any (fun w => widgetStatus st w == some false)) ||
            anyFailure st ds) := by
        unfold anyFailure
        rw [List.any_cons, Bool.or_assoc]
      rw [hbool]

/-! ### Abort behaviour (`KeyError` paths) of the reconciler -/

theorem addWidget_state (dashId : Nat) (w : SWidget) (e : Bool) (st : PushState) :
    ∀ e1 st1, addWidget dashId w e st = some (e1, st1) →
      st1.saved = st.saved ∧ st1.dashboards = st.dashboards := by
  intro e1 st1 h
  unfold addWidget at h
  split at h
  · exact Option.noConfusion h
  · split at h
    · exact Option.noConfusion h
    · split at h
      · simp only [Option.some.injEq, Prod.mk.injEq] at h
        rw [← h.2]
        exact ⟨rfl, rfl⟩
      · split at h
        · exact Option.noConfusion h
        · simp only [Option.some.injEq, Prod.mk.injEq] at h
          rw [← h.2]
          exact ⟨rfl, rfl⟩

theorem addWidgets_state (dashId : Nat) :
    ∀ (ws : List SWidget) (e : Bool) (st : PushState) (e1 : Bool) (st1 : PushState),
      addWidgets dashId ws e st = some (e1, st1) →
      st1.saved = st.saved ∧ st1.dashboards = st.dashboards := by
  intro ws
  induction ws with
  | nil =>
    intro e st e1 st1 h
    rw [addWidgets] at h
    simp only [Option.some.injEq, Prod.mk.injEq] at h
    rw [← h.2]
    exact ⟨rfl, rfl⟩
  | cons w t ih =>
    intro e st e1 st1 h
    rw [addWidgets] at h
    split at h
    · exact Option.noConfusion h
    · rename_i e2 st2 haw
      obtain ⟨hs, hd⟩ := addWidget_state dashId w e st e2 st2 haw
      obtain ⟨hs2, hd2⟩ := ih e2 st2 e1 st1 h
      exact ⟨hs2.trans hs, hd2.trans hd⟩

theorem deleteWidgets_state :
    ∀ (ws : List RWidget) (st st1 : PushState),
      deleteWidgets ws st = some st1 →
      st1.saved = st.saved ∧ st1.dashboards = st.dashboards := by
  intro ws
  induction ws with
  | nil =>
    intro st st1 h
    rw [deleteWidgets] at h
    cases h
    exact ⟨rfl, rfl⟩
  | cons w t ih =>
    intro st st1 h
    rw [deleteWidgets] at h
    split at h
    · exact Option.noConfusion h
    · have h2 := ih { st with trace := st.trace ++ [RemoteOp.deleteWidget w.id] } st1 h
      exact h2

/-- A widget whose `queryName` is absent from the saved queries aborts
the whole widget loop with `KeyError`. -/
theorem addWidgets_abort (dashId : Nat) :
    ∀ (ws : List SWidget) (e : Bool) (st : PushState) (w : SWidget) (ref : SVizRef),
      w ∈ ws → w.visualization = some ref →
      lookupA ref.queryName st.saved = none →
      addWidgets dashId ws e st = none := by
  intro ws
  induction ws with
  | nil =>
    intro e st w ref hmem
    cases hmem
  | cons w' t ih =>
    intro e st w ref hmem hviz hnone
    rcases List.mem_cons.1 hmem with he | ht
    · have hviz' : w'.visualization = some ref := by rw [← he]; exact hviz
      rw [addWidgets]
      have haw : addWidget dashId w' e st = none := by
        unfold addWidget
        simp [hviz', hnone]
      rw [haw]
    · rw [addWidgets]
      cases haw : addWidget dashId w' e st with
      | none => rfl
      | some r =>
        obtain ⟨e2, st2⟩ := r
        obtain ⟨hs, _⟩ := addWidget_state dashId w' e st e2 st2 haw
        exact ih e2 st2 w ref ht hviz (by rw [hs]; exact hnone)

theorem updateDashboardsAux_abort :
    ∀ (ds : List SDashboard) (e : Bool) (st : PushState) (d : SDashboard)
      (w : SWidget) (ref : SVizRef),
      d ∈ ds → w ∈ d.widgets → w.visualization = some ref →
      lookupA ref.queryName st.saved = none →
      updateDashboardsAux ds e st = none := by
  intro ds
  induction ds with
  | nil =>
    intro e st d w ref hmem
    cases hmem
  | cons d' t ih =>
    intro e st d w ref hmem hw hviz hnone
    rw [updateDashboardsAux]
    cases hrd : lookupA d'.name st.dashboards with
    | none => rfl
    | some rd =>
      show (match deleteWidgets rd.widgets st with
        | none => none
        | some st1 =>
          match addWidgets rd.id d'.widgets e st1 with
          | none => none
          | some (e1, st2) => updateDashboardsAux t e1 st2) = none
      cases hdel : deleteWidgets rd.widgets st with
      | none => rfl
      | some st1 =>
        obtain ⟨hs1, _⟩ := deleteWidgets_state rd.widgets st st1 hdel
        show (match addWidgets rd.id d'.widgets e st1 with
          | none => none
          | some (e1, st2) => updateDashboardsAux t e1 st2) = none
        rcases List.mem_cons.1 hmem with he | ht
        · have hw' : w ∈ d'.widgets := by rw [← he]; exact hw
          rw [addWidgets_abort rd.id d'.widgets e st1 w ref hw' hviz
            (by rw [hs1]; exact hnone)]
        · cases haw : addWidgets rd.id d'.widgets e st1 with
          | none => rfl
          | some r =>
            obtain ⟨e2, st2⟩ := r
            obtain ⟨hs2, _⟩ := addWidgets_state rd.id d'.widgets e st1 e2 st2 haw
            exact ih e2 st2 d w ref ht hw hviz (by rw [hs2, hs1]; exact hnone)

/-! ### Small general facts used by the dashboard claims -/

theorem filterMap_length_of_all_isSome {α β : Type} (f : α → Option β) :
    ∀ l : List α, (∀ a ∈ l, (f a).isSome = true) →
      (l.filterMap f).length = l.length := by
  intro l
  induction l with
  | nil => intro _; rfl
  | cons a t ih =>
    intro h
    rw [List.filterMap_cons]
    obtain ⟨b, hb⟩ := Option.isSome_iff_exists.1 (h a (List.mem_cons_self a t))
    rw [hb]
    simp only [List.length_cons]
    rw [ih (fun x hx => h x (List.mem_cons_of_mem a hx))]

theorem widgetOp_isSome_of_status {st : PushState} {w : SWidget} (dashId : Nat)
    (h : widgetStatus st w = some true) : (widgetOp st dashId w).isSome = true := by
  unfold widgetStatus at h
  unfold widgetOp
  cases hv : w.visualization with
  | none => simp [hv] at h
  | some ref =>
    cases hq : lookupA ref.queryName st.saved with
    | none => simp [hv, hq] at h
    | some q =>
      cases hf : q.visualizations.find? (fun v => v.name == ref.name) with
      | none => simp [hv, hq, hf] at h
      | some viz =>
        cases hu : viz.uploaded_id with
        | none => simp [hv, hq, hf, hu] at h
        | some vid => simp [hv, hq, hf, hu]

theorem anyFailure_false_of_all_true {st : PushState} {savedDs : List SDashboard}
    (h : ∀ d ∈ savedDs, ∀ w ∈ d.widgets, widgetStatus st w = some true) :
    anyFailure st savedDs = false := by
  unfold anyFailure
  rw [List.any_eq_false]
  intro d hd
  simp only [Bool.not_eq_true, List.any_eq_false]
  intro w hw
  rw [h d hd w hw]
  decide

theorem noAborts_of_all_true {st : PushState} {savedDs : List SDashboard}
    (h : ∀ d ∈ savedDs, ∀ w ∈ d.widgets, widgetStatus st w = some true) :
    ∀ d ∈ savedDs, noAborts st d = true := by
  intro d hd
  unfold noAborts
  rw [List.all_eq_true]
  intro w hw
  rw [h d hd w hw]
  decide

/-- `update_dashboards` under the characterization of its auxiliary. -/
theorem update_dashboards_eq (savedDs : List SDashboard) (st : PushState)
    (hr : ∀ d ∈ savedDs, dashReady st d = true)
    (ha : ∀ d ∈ savedDs, noAborts st d = true) :
    update_dashboards savedDs st =
      some ((if anyFailure st savedDs then 1 else 0),
        { st with trace := st.trace ++ (savedDs.map (dashOps st)).join }) := by
  unfold update_dashboards
  rw [updateDashboardsAux_eq savedDs false st hr ha]
  show some (if (false || anyFailure st savedDs) then 1 else 0, _) = _
  rw [Bool.false_or]

/-- A visualization name missing on a present query makes the widget a
recoverable skip: no request is issued for it. -/
theorem widgetOp_none_of_status_false :
    ∀ (st : PushState) (w : SWidget) (dashId : Nat),
      widgetStatus st w = some false → widgetOp st dashId w = none := by
  intro st w dashId h
  unfold widgetStatus at h
  unfold widgetOp
  cases hv : w.visualization with
  | none => simp [hv] at h
  | some ref =>
    cases hq : lookupA ref.queryName st.saved with
    | none => simp [hv, hq] at h
    | some q =>
      cases hf : q.visualizations.find? (fun v => v.name == ref.name) with
      | none => simp [hv, hq, hf]
      | some viz =>
        cases hu : viz.uploaded_id with
        | none => simp [hv, hq, hf, hu] at h
        | some vid => simp [hv, hq, hf, hu] at h

theorem widget_le_trans : ∀ a b c : FWidget,
    widget_le a b = true → widget_le b c = true → widget_le a c = true := by
  intro a b c hab hbc
  unfold widget_le at *
  simp only [decide_eq_true_eq] at *
  omega

theorem widget_le_total : ∀ a b : FWidget,
    (widget_le a b || widget_le b a) = true := by
  intro a b
  unfold widget_le
  simp only [Bool.or_eq_true, decide_eq_true_eq]
  omega

/-- C3: for every saved dashboard, `update_dashboards` issues the delete
requests for all existing remote widgets before any create request, and
when every saved widget resolves it issues exactly one create per saved
widget, in saved order (`dashOps` lists the deletions first and the
creations as an order-preserving `filterMap`); on the fetch side the
saved widget list is sorted by `(row, col)` and is a permutation of the
dashboard's widgets. -/
theorem C3_widget_replacement_order :
    (∀ (savedDs : List SDashboard) (st : PushState),
      (∀ d ∈ savedDs, dashReady st d = true) →
      (∀ d ∈ savedDs, ∀ w ∈ d.widgets, widgetStatus st w = some true) →
      (update_dashboards savedDs st =
        some (0, { st with trace := st.trace ++ (savedDs.map (dashOps st)).join })) ∧
      (∀ d ∈ savedDs, ∀ rd, lookupA d.name st.dashboards = some rd →
        dashOps st d =
          rd.widgets.map (fun w => RemoteOp.deleteWidget w.id) ++
            d.widgets.filterMap (widgetOp st rd.id) ∧
        (d.widgets.filterMap (widgetOp st rd.id)).length = d.widgets.length)) ∧
    (∀ ws : List FWidget,
      (save_dashboard_widgets ws).Perm ws ∧
      List.Pairwise (fun a b => widget_le a b = true) (save_dashboard_widgets ws)) := by
  constructor
  · intro savedDs st hr hok
    have ha := noAborts_of_all_true hok
    have hAF := anyFailure_false_of_all_true hok
    refine ⟨?_, ?_⟩
    · rw [update_dashboards_eq savedDs st hr ha, hAF]
      rfl
    · intro d hd rd hrd
      constructor
      · unfold dashOps
        rw [hrd]
      · exact filterMap_length_of_all_isSome (widgetOp st rd.id) d.widgets
          (fun w hw => widgetOp_isSome_of_status rd.id (hok d hd w hw))
  · intro ws
    exact ⟨List.mergeSort_perm ws widget_le,
      List.sorted_mergeSort widget_le_trans widget_le_total ws⟩

theorem C3_witness :
    (∀ d ∈ [c3Dash], dashReady c3St d = true) ∧
    update_dashboards [c3Dash] c3St =
      some (0, { c3St with trace := c3St.trace ++ ([c3Dash].map (dashOps c3St)).join }) ∧
    List.Pairwise (fun a b => widget_le a b = true)
      (save_dashboard_widgets [⟨1, 1, "b", none⟩, ⟨0, 2, "a", none⟩]) :=
  ⟨by decide,
    (C3_widget_replacement_order.1 [c3Dash] c3St (by decide) (by decide)).1,
    (C3_widget_replacement_order.2 [⟨1, 1, "b", none⟩, ⟨0, 2, "a", none⟩]).2⟩

/-- C4: when some saved widget fails to resolve, only that widget is
skipped — the run still processes every dashboard and every other
widget (the trace is exactly the per-dashboard deletions and creations,
and every resolvable widget's create request is in it) — and
`update_dashboards` returns 1, which `push` exits with; with no failing
widget it returns 0 and `push` exits 0. -/
theorem C4_partial_failure_isolation :
    ∀ (fuel : Nat) (savedDs : List SDashboard) (st st0 : PushState),
      (∀ d ∈ savedDs, dashReady st d = true) →
      (∀ d ∈ savedDs, noAborts st d = true) →
      (update_dashboards savedDs st =
        some ((if anyFailure st savedDs then 1 else 0),
          { st with trace := st.trace ++ (savedDs.map (dashOps st)).join })) ∧
      (∀ d ∈ savedDs, ∀ rd, lookupA d.name st.dashboards = some rd →
        ∀ w ∈ d.widgets, ∀ op, widgetOp st rd.id w = some op →
          op ∈ st.trace ++ (savedDs.map (dashOps st)).join) ∧
      (upload_queries fuel
          ((create_missing_dashboards savedDs st0).saved.map Prod.fst)
          (create_missing_dashboards savedDs st0) = some st →
        push fuel savedDs st0 = some (if anyFailure st savedDs then 1 else 0)) := by
  intro fuel savedDs st st0 hr ha
  refine ⟨update_dashboards_eq savedDs st hr ha, ?_, ?_⟩
  · intro d hd rd hrd w hw op hop
    have h1 : op ∈ d.widgets.filterMap (widgetOp st rd.id) :=
      List.mem_filterMap.2 ⟨w, hw, hop⟩
    have h2 : op ∈ dashOps st d := by
      unfold dashOps
      rw [hrd]
      exact List.mem_append_right _ h1
    exact List.mem_append_right _
      (List.mem_join.2 ⟨dashOps st d, List.mem_map_of_mem _ hd, h2⟩)
  · intro hup
    show (match upload_queries fuel
        ((create_missing_dashboards savedDs st0).saved.map Prod.fst)
        (create_missing_dashboards savedDs st0) with
      | none => none
      | some st2 =>
        match update_dashboards savedDs st2 with
        | none => none
        | some (code, _) => some code) =
      some (if anyFailure st savedDs then 1 else 0)
    rw [hup]
    show (match update_dashboards savedDs st with
      | none => none
      | some (code, _) => some code) = some (if anyFailure st savedDs then 1 else 0)
    rw [update_dashboards_eq savedDs st hr ha]

theorem C4_witness :
    (∀ d ∈ [c4Dash], dashReady c4St d = true) ∧
    update_dashboards [c4Dash] c4St =
      some ((if anyFailure c4St [c4Dash] then 1 else 0),
        { c4St with trace := c4St.trace ++ ([c4Dash].map (dashOps c4St)).join }) ∧
    anyFailure c4St [c4Dash] = true :=
  ⟨by decide,
    (C4_partial_failure_isolation 0 [c4Dash] c4St c4St (by decide) (by decide)).1,
    by decide⟩

/-- C9 counterexample: a saved widget referencing the visualization
"Table" on query "Q", whose persisted metadata has no visualizations
(the uncustomized default Table was dropped by fetch).  Resolution does
NOT synthesize the default: the run returns failure status 1 and issues
no requests at all (in particular no widget creation), leaving the state
unchanged. -/
theorem C9_counterexample :
    update_dashboards [c9Dash] c9St = some (1, c9St) ∧
    c9St.trace = [] ∧
    lookupA "Q" c9St.saved = some c9Query ∧
    c9Query.visualizations = [] :=
  ⟨by decide, rfl, by decide, rfl⟩

/-- C9 (amended): fetch drops the uncustomized default Table
visualization from the persisted metadata, and push does not synthesize
it back: a widget whose visualization fails to resolve is a recoverable
failure — no request is issued for it and the run returns failure
status 1 (while still issuing every other dashboard's requests). -/
theorem C9_default_table_amended :
    (∀ vizs : List FViz, default_table ∉ process_visualizations vizs) ∧
    (∀ (savedDs : List SDashboard) (st : PushState),
      (∀ d ∈ savedDs, dashReady st d = true) →
      (∀ d ∈ savedDs, noAborts st d = true) →
      anyFailure st savedDs = true →
      update_dashboards savedDs st =
        some (1, { st with trace := st.trace ++ (savedDs.map (dashOps st)).join })) ∧
    (∀ (st : PushState) (w : SWidget) (dashId : Nat),
      widgetStatus st w = some false → widgetOp st dashId w = none) := by
  refine ⟨?_, ?_, widgetOp_none_of_status_false⟩
  · intro vizs hmem
    unfold process_visualizations at hmem
    rw [List.mem_mergeSort, List.mem_filter] at hmem
    obtain ⟨-, h2⟩ := hmem
    simp at h2
  · intro savedDs st hr ha hAF
    rw [update_dashboards_eq savedDs st hr ha, hAF]
    rfl

theorem C9_witness :
    default_table ∉ process_visualizations [default_table] ∧
    (∀ d ∈ [c9Dash], dashReady c9St d = true) ∧
    anyFailure c9St [c9Dash] = true ∧
    update_dashboards [c9Dash] c9St =
      some (1, { c9St with trace := c9St.trace ++ ([c9Dash].map (dashOps c9St)).join }) ∧
    widgetOp c9St 1 ⟨some ⟨"Table", "Q"⟩, "t", 0, 0⟩ = none :=
  ⟨C9_default_table_amended.1 [default_table],
    by decide, by decide,
    C9_default_table_amended.2.1 [c9Dash] c9St (by decide) (by decide) (by decide),
    C9_default_table_amended.2.2 c9St ⟨some ⟨"Table", "Q"⟩, "t", 0, 0⟩ 1 (by decide)⟩

/-- C10: a saved widget whose visualization names a `queryName` absent
from the saved-queries dict makes `update_dashboards` abort with
`KeyError` (result `none`), whereas runs in which every widget avoids
the `KeyError` paths — the query exists, possibly without the named
visualization — complete with a result code. -/
theorem C10_missing_query_aborts :
    (∀ (savedDs : List SDashboard) (st : PushState) (d : SDashboard)
        (w : SWidget) (ref : SVizRef),
      d ∈ savedDs → w ∈ d.widgets → w.visualization = some ref →
      lookupA ref.queryName st.saved = none →
      update_dashboards savedDs st = none) ∧
    (∀ (savedDs : List SDashboard) (st : PushState),
      (∀ d ∈ savedDs, dashReady st d = true) →
      (∀ d ∈ savedDs, ∀ w ∈ d.widgets, widgetStatus st w ≠ none) →
      ∃ code st1, update_dashboards savedDs st = some (code, st1)) := by
  constructor
  · intro savedDs st d w ref hmem hw hviz hnone
    unfold update_dashboards
    rw [updateDashboardsAux_abort savedDs false st d w ref hmem hw hviz hnone]
  · intro savedDs st hr hok
    have ha : ∀ d ∈ savedDs, noAborts st d = true := by
      intro d hd
      unfold noAborts
      rw [List.all_eq_true]
      intro w hw
      have h1 := hok d hd w hw
      cases hx : widgetStatus st w with
      | none => exact absurd hx h1
      | some b => simp [hx]
    exact ⟨_, _, update_dashboards_eq savedDs st hr ha⟩

/-! ### List facts for the link-template characterizations -/

theorem takeWhile_append_all {α : Type} (p : α → Bool) :
    ∀ (l1 l2 : List α), (∀ a ∈ l1, p a = true) →
      (l1 ++ l2).takeWhile p = l1 ++ l2.takeWhile p := by
  intro l1
  induction l1 with
  | nil => intro l2 _; rfl
  | cons a t ih =>
    intro l2 h
    rw [List.cons_append, List.takeWhile_cons_of_pos (h a (List.mem_cons_self a t)),
      ih l2 (fun x hx => h x (List.mem_cons_of_mem a hx)), List.cons_append]

theorem dropWhile_append_all {α : Type} (p : α → Bool) :
    ∀ (l1 l2 : List α), (∀ a ∈ l1, p a = true) →
      (l1 ++ l2).dropWhile p = l2.dropWhile p := by
  intro l1
  induction l1 with
  | nil => intro l2 _; rfl
  | cons a t ih =>
    intro l2 h
    rw [List.cons_append, List.dropWhile_cons_of_pos (h a (List.mem_cons_self a t)),
      ih l2 (fun x hx => h x (List.mem_cons_of_mem a hx))]

theorem takeWhile_eq_self_of_all {α : Type} (p : α → Bool) :
    ∀ l : List α, (∀ a ∈ l, p a = true) → l.takeWhile p = l := by
  intro l
  induction l with
  | nil => intro _; rfl
  | cons a t ih =>
    intro h
    rw [List.takeWhile_cons_of_pos (h a (List.mem_cons_self a t)),
      ih (fun x hx => h x (List.mem_cons_of_mem a hx))]

theorem dropWhile_eq_nil_of_all {α : Type} (p : α → Bool) :
    ∀ l : List α, (∀ a ∈ l, p a = true) → l.dropWhile p = [] := by
  intro l
  induction l with
  | nil => intro _; rfl
  | cons a t ih =>
    intro h
    rw [List.dropWhile_cons_of_pos (h a (List.mem_cons_self a t)),
      ih (fun x hx => h x (List.mem_cons_of_mem a hx))]

theorem isEmpty_false_of_ne_nil {α : Type} {l : List α} (h : l ≠ []) :
    l.isEmpty = false := by
  cases l with
  | nil => exact absurd rfl h
  | cons a t => rfl

theorem endAnchor_cons_ne {c : Char} (x : List Char) (hc : ¬(c = '\n')) :
    endAnchor (c :: x) = false := by
  unfold endAnchor
  rw [Bool.or_eq_false_iff]
  constructor
  · exact beq_eq_false_iff_ne.2 (by simp)
  · exact beq_eq_false_iff_ne.2 (by simp [hc])

/-! ### Claim C5: the fetch-side link rewrite, characterized -/

theorem fetchFixLinkCore_query (D S Q : List Char) (c : Char)
    (hD : D ≠ []) (hDd : ∀ d ∈ D, d.isDigit = true)
    (hS : S ≠ []) (hSs : ∀ a ∈ S, isSlugCh a = true) (hc : ¬(c = '\n')) :
    fetchFixLinkCore (dashPrefix ++ (D ++ '-' :: (S ++ '?' :: c :: Q))) =
      dashPrefix ++ '0' :: '-' :: (S ++ '?' :: c :: Q) := by
  have ht := List.take_left dashPrefix (D ++ '-' :: (S ++ '?' :: c :: Q))
  have hd := List.drop_left dashPrefix (D ++ '-' :: (S ++ '?' :: c :: Q))
  have htw : (D ++ '-' :: (S ++ '?' :: c :: Q)).takeWhile Char.isDigit = D := by
    rw [takeWhile_append_all Char.isDigit D _ hDd,
      List.takeWhile_cons_of_neg (by decide), List.append_nil]
  have hdw : (D ++ '-' :: (S ++ '?' :: c :: Q)).dropWhile Char.isDigit =
      '-' :: (S ++ '?' :: c :: Q) := by
    rw [dropWhile_append_all Char.isDigit D _ hDd,
      List.dropWhile_cons_of_neg (by decide)]
  have hm : fetchLinkMatches ('-' :: (S ++ '?' :: c :: Q)) = true := by
    unfold fetchLinkMatches
    have h1 : fetchSlugMatches ('-' :: (S ++ '?' :: c :: Q)) = true := by
      show ((!((S ++ '?' :: c :: Q).takeWhile isSlugCh).isEmpty) &&
        fetchQueryMatches ((S ++ '?' :: c :: Q).dropWhile isSlugCh)) = true
      rw [takeWhile_append_all isSlugCh S _ hSs, List.takeWhile_cons_of_neg (by decide),
        List.append_nil, dropWhile_append_all isSlugCh S _ hSs,
        List.dropWhile_cons_of_neg (by decide)]
      have hq : fetchQueryMatches ('?' :: c :: Q) = true := by
        show (!(c == '\n')) = true
        rw [beq_eq_false_iff_ne.2 hc]
        rfl
      rw [hq, isEmpty_false_of_ne_nil hS]
      rfl
    rw [h1, Bool.or_true]
  unfold fetchFixLinkCore
  rw [ht, if_pos rfl, hd, htw, hdw, hm, isEmpty_false_of_ne_nil hD]
  rfl

theorem fetchFixLinkCore_digits (D : List Char) (hD : D ≠ [])
    (hDd : ∀ d ∈ D, d.isDigit = true) :
    fetchFixLinkCore (dashPrefix ++ D) = dashPrefix ++ ['0'] := by
  have ht := List.take_left dashPrefix D
  have hd := List.drop_left dashPrefix D
  have htw : D.takeWhile Char.isDigit = D := takeWhile_eq_self_of_all _ D hDd
  have hdw : D.dropWhile Char.isDigit = [] := dropWhile_eq_nil_of_all _ D hDd
  unfold fetchFixLinkCore
  rw [ht, if_pos rfl, hd, htw, hdw, isEmpty_false_of_ne_nil hD]
  rfl

theorem fetchFixLinkCore_noquery (D S : List Char)
    (hDd : ∀ d ∈ D, d.isDigit = true) (hSs : ∀ a ∈ S, isSlugCh a = true) :
    fetchFixLinkCore (dashPrefix ++ (D ++ '-' :: S)) =
      dashPrefix ++ (D ++ '-' :: S) := by
  have ht := List.take_left dashPrefix (D ++ '-' :: S)
  have hd := List.drop_left dashPrefix (D ++ '-' :: S)
  have hdw : (D ++ '-' :: S).dropWhile Char.isDigit = '-' :: S := by
    rw [dropWhile_append_all Char.isDigit D _ hDd,
      List.dropWhile_cons_of_neg (by decide)]
  have hm : fetchLinkMatches ('-' :: S) = false := by
    unfold fetchLinkMatches
    have h1 : fetchSlugMatches ('-' :: S) = false := by
      show ((!(S.takeWhile isSlugCh).isEmpty) &&
        fetchQueryMatches (S.dropWhile isSlugCh)) = false
      rw [dropWhile_eq_nil_of_all isSlugCh S hSs]
      have hq : fetchQueryMatches ([] : List Char) = false := rfl
      rw [hq, Bool.and_false]
    rw [endAnchor_cons_ne S (by decide), h1, Bool.or_false]
  unfold fetchFixLinkCore
  rw [ht, if_pos rfl, hd, hdw, hm, Bool.and_false]
  rfl

/-- C5 counterexample: a link template of the claimed form — numeric id,
slug, but no trailing query string — is NOT rewritten by the fetch
pipeline: the fetch pattern's first alternative demands `\?` plus a
non-empty query after the slug, and its second alternative demands the
end right after the digits, so `/dashboards/3-class-summary` is left
unchanged rather than becoming `/dashboards/0-class-summary`. -/
theorem C5_counterexample :
    fetch_fix_link "/dashboards/3-class-summary" = "/dashboards/3-class-summary" ∧
    fetch_fix_link "/dashboards/3-class-summary" ≠ "/dashboards/0-class-summary" :=
  ⟨by decide, by decide⟩

/-- C5 (amended): the fetch rewrite replaces the numeric id by `0`, the
rest of the template kept verbatim, exactly when the template is
`/dashboards/<digits>` (the whole template, `$`) or
`/dashboards/<digits>-<slug>?<query>` with a non-empty slug and a query
string starting with a non-newline character; when a slug is present but
no query string follows, the template is left unchanged. -/
theorem C5_fetch_link_rewrite :
    (∀ (D S Q : List Char) (c : Char),
      D ≠ [] → (∀ d ∈ D, d.isDigit = true) →
      S ≠ [] → (∀ a ∈ S, isSlugCh a = true) → ¬(c = '\n') →
      fetch_fix_link ⟨dashPrefix ++ (D ++ '-' :: (S ++ '?' :: c :: Q))⟩ =
        ⟨dashPrefix ++ '0' :: '-' :: (S ++ '?' :: c :: Q)⟩) ∧
    (∀ D : List Char, D ≠ [] → (∀ d ∈ D, d.isDigit = true) →
      fetch_fix_link ⟨dashPrefix ++ D⟩ = ⟨dashPrefix ++ ['0']⟩) ∧
    (∀ (D S : List Char), (∀ d ∈ D, d.isDigit = true) →
      (∀ a ∈ S, isSlugCh a = true) →
      fetch_fix_link ⟨dashPrefix ++ (D ++ '-' :: S)⟩ =
        ⟨dashPrefix ++ (D ++ '-' :: S)⟩) := by
  refine ⟨?_, ?_, ?_⟩
  · intro D S Q c hD hDd hS hSs hc
    exact congrArg String.mk (fetchFixLinkCore_query D S Q c hD hDd hS hSs hc)
  · intro D hD hDd
    exact congrArg String.mk (fetchFixLinkCore_digits D hD hDd)
  · intro D S hDd hSs
    exact congrArg String.mk (fetchFixLinkCore_noquery D S hDd hSs)

theorem C5_witness :
    (['1'] : List Char) ≠ [] ∧
    fetch_fix_link ⟨dashPrefix ++ (['1'] ++ '-' :: (['a'] ++ '?' :: 'x' :: []))⟩ =
      ⟨dashPrefix ++ '0' :: '-' :: (['a'] ++ '?' :: 'x' :: [])⟩ ∧
    fetch_fix_link ⟨dashPrefix ++ ['7']⟩ = ⟨dashPrefix ++ ['0']⟩ ∧
    fetch_fix_link ⟨dashPrefix ++ (['3'] ++ '-' :: ['a', 'b'])⟩ =
      ⟨dashPrefix ++ (['3'] ++ '-' :: ['a', 'b'])⟩ :=
  ⟨by decide,
    C5_fetch_link_rewrite.1 ['1'] ['a'] [] 'x' (by decide) (by decide) (by decide)
      (by decide) (by decide),
    C5_fetch_link_rewrite.2.1 ['7'] (by decide) (by decide),
    C5_fetch_link_rewrite.2.2 ['3'] ['a', 'b'] (by decide) (by decide)⟩

/-! ### Claim C6: the push-side link fix, characterized -/

theorem pushLinkMatch_noquery (D S : List Char)
    (hD : D ≠ []) (hDd : ∀ d ∈ D, d.isDigit = true)
    (hS : S ≠ []) (hSs : ∀ a ∈ S, isSlugCh a = true) :
    pushLinkMatch (dashPrefix ++ (D ++ '-' :: S)) = some (D, S, []) := by
  have ht := List.take_left dashPrefix (D ++ '-' :: S)
  have hd := List.drop_left dashPrefix (D ++ '-' :: S)
  have htw : (D ++ '-' :: S).takeWhile Char.isDigit = D := by
    rw [takeWhile_append_all Char.isDigit D _ hDd,
      List.takeWhile_cons_of_neg (by decide), List.append_nil]
  have hdw : (D ++ '-' :: S).dropWhile Char.isDigit = '-' :: S := by
    rw [dropWhile_append_all Char.isDigit D _ hDd,
      List.dropWhile_cons_of_neg (by decide)]
  unfold pushLinkMatch
  rw [ht, if_pos rfl, hd, htw, hdw]
  show pushSlugGroup D (S.takeWhile isSlugCh) (S.dropWhile isSlugCh) = some (D, S, [])
  rw [takeWhile_eq_self_of_all isSlugCh S hSs, dropWhile_eq_nil_of_all isSlugCh S hSs]
  unfold pushSlugGroup
  rw [isEmpty_false_of_ne_nil hD, isEmpty_false_of_ne_nil hS]
  rfl

theorem pushLinkMatch_query (D S Q : List Char) (c : Char)
    (hD : D ≠ []) (hDd : ∀ d ∈ D, d.isDigit = true)
    (hS : S ≠ []) (hSs : ∀ a ∈ S, isSlugCh a = true)
    (hc : ¬(c = '\n')) (hQ : ∀ a ∈ Q, ¬(a = '\n')) :
    pushLinkMatch (dashPrefix ++ (D ++ '-' :: (S ++ '?' :: c :: Q))) =
      some (D, S, '?' :: c :: Q) := by
  have ht := List.take_left dashPrefix (D ++ '-' :: (S ++ '?' :: c :: Q))
  have hd := List.drop_left dashPrefix (D ++ '-' :: (S ++ '?' :: c :: Q))
  have htw : (D ++ '-' :: (S ++ '?' :: c :: Q)).takeWhile Char.isDigit = D := by
    rw [takeWhile_append_all Char.isDigit D _ hDd,
      List.takeWhile_cons_of_neg (by decide), List.append_nil]
  have hdw : (D ++ '-' :: (S ++ '?' :: c :: Q)).dropWhile Char.isDigit =
      '-' :: (S ++ '?' :: c :: Q) := by
    rw [dropWhile_append_all Char.isDigit D _ hDd,
      List.dropWhile_cons_of_neg (by decide)]
  unfold pushLinkMatch
  rw [ht, if_pos rfl, hd, htw, hdw]
  show pushSlugGroup D ((S ++ '?' :: c :: Q).takeWhile isSlugCh)
    ((S ++ '?' :: c :: Q).dropWhile isSlugCh) = some (D, S, '?' :: c :: Q)
  rw [takeWhile_append_all isSlugCh S _ hSs, List.takeWhile_cons_of_neg (by decide),
    List.append_nil, dropWhile_append_all isSlugCh S _ hSs,
    List.dropWhile_cons_of_neg (by decide)]
  unfold pushSlugGroup
  rw [isEmpty_false_of_ne_nil hD, isEmpty_false_of_ne_nil hS,
    endAnchor_cons_ne _ (by decide)]
  show pushQueryGroup D S ('?' :: c :: Q) = some (D, S, '?' :: c :: Q)
  show (if ((c :: Q).takeWhile (fun a => !(a == '\n'))).isEmpty then none
    else some (D, S, '?' :: (c :: Q).takeWhile (fun a => !(a == '\n')))) =
    some (D, S, '?' :: c :: Q)
  have hq : (c :: Q).takeWhile (fun a => !(a == '\n')) = c :: Q := by
    refine takeWhile_eq_self_of_all _ _ ?_
    intro a ha
    rcases List.mem_cons.1 ha with rfl | ha2
    · rw [beq_eq_false_iff_ne.2 hc]
      rfl
    · rw [beq_eq_false_iff_ne.2 (hQ a ha2)]
      rfl
  rw [hq]
  rfl

/-- C6: on a url `/dashboards/<digits>-<slug>` with optional
`?<query>`, `fix_dashboard_url_id` substitutes the id of the first
existing remote dashboard whose slug equals the url's slug, keeping
slug and query verbatim; when no remote dashboard has that slug the
url is returned unchanged with the error flag set (the `logging.error`
branch) — no exception escapes. -/
theorem C6_push_link_fix :
    ∀ (D S Q : List Char) (dbs : List RDashboard),
      D ≠ [] → (∀ d ∈ D, d.isDigit = true) →
      S ≠ [] → (∀ a ∈ S, isSlugCh a = true) →
      (Q = [] ∨ ∃ c Q', Q = '?' :: c :: Q' ∧ ∀ a ∈ c :: Q', ¬(a = '\n')) →
      ((∀ db ∈ dbs, ¬(db.slug = String.mk S)) →
        fix_dashboard_url_id ⟨dashPrefix ++ (D ++ '-' :: (S ++ Q))⟩ dbs =
          (⟨dashPrefix ++ (D ++ '-' :: (S ++ Q))⟩, true)) ∧
      (∀ db, (dbs.filter (fun d => d.slug == String.mk S)).head? = some db →
        fix_dashboard_url_id ⟨dashPrefix ++ (D ++ '-' :: (S ++ Q))⟩ dbs =
          (⟨dashPrefix ++ (Nat.repr db.id).data ++ '-' :: (S ++ Q)⟩, false)) := by
  intro D S Q dbs hD hDd hS hSs hQ
  have hmatch : pushLinkMatch (dashPrefix ++ (D ++ '-' :: (S ++ Q))) =
      some (D, S, Q) := by
    rcases hQ with rfl | ⟨c, Q', rfl, hnl⟩
    · rw [List.append_nil]
      exact pushLinkMatch_noquery D S hD hDd hS hSs
    · exact pushLinkMatch_query D S Q' c hD hDd hS hSs
        (hnl c (List.mem_cons_self c Q')) (fun a ha => hnl a (List.mem_cons_of_mem c ha))
  constructor
  · intro hmiss
    have hfil : dbs.filter (fun d => d.slug == String.mk S) = [] :=
      List.filter_eq_nil.2 (fun db hdb h => hmiss db hdb (beq_iff_eq.1 h))
    unfold fix_dashboard_url_id
    rw [hmatch]
    show (match (dbs.filter (fun d => d.slug == String.mk S)).head? with
      | some d =>
        ((⟨dashPrefix ++ (Nat.repr d.id).data ++ '-' :: (S ++ Q)⟩ : String), false)
      | none => ((⟨dashPrefix ++ (D ++ '-' :: (S ++ Q))⟩ : String), true)) = _
    rw [hfil]
    rfl
  · intro db hdb
    unfold fix_dashboard_url_id
    rw [hmatch]
    show (match (dbs.filter (fun d => d.slug == String.mk S)).head? with
      | some d =>
        ((⟨dashPrefix ++ (Nat.repr d.id).data ++ '-' :: (S ++ Q)⟩ : String), false)
      | none => ((⟨dashPrefix ++ (D ++ '-' :: (S ++ Q))⟩ : String), true)) = _
    rw [hdb]

theorem C6_witness :
    (∀ db ∈ [c6DashZ], ¬(db.slug = String.mk ['a', 'b'])) ∧
    fix_dashboard_url_id ⟨dashPrefix ++ (['1'] ++ '-' :: (['a', 'b'] ++ []))⟩ [c6DashZ] =
      (⟨dashPrefix ++ (['1'] ++ '-' :: (['a', 'b'] ++ []))⟩, true) ∧
    fix_dashboard_url_id ⟨dashPrefix ++ (['1'] ++ '-' :: (['a', 'b'] ++ []))⟩ [c6Dash] =
      (⟨dashPrefix ++ (Nat.repr c6Dash.id).data ++ '-' :: (['a', 'b'] ++ [])⟩, false) :=
  ⟨by decide,
    (C6_push_link_fix ['1'] ['a', 'b'] [] [c6DashZ] (by decide) (by decide) (by decide)
      (by decide) (Or.inl rfl)).1 (by decide),
    (C6_push_link_fix ['1'] ['a', 'b'] [] [c6Dash] (by decide) (by decide) (by decide)
      (by decide) (Or.inl rfl)).2 c6Dash (by decide)⟩

/-! ### Claim C7: the two reference forms of query-typed parameters -/

theorem rewrite_params_fetch_resolved (qbi : List (Nat × String)) :
    ∀ ps ps', rewrite_params_fetch qbi ps = some ps' →
      ∀ p ∈ ps', p.ptype = "query" →
        (∃ nm, p.queryName = some nm) ∧ p.queryId = none := by
  intro ps
  induction ps with
  | nil =>
    intro ps' h p hp
    rw [rewrite_params_fetch] at h
    cases h
    cases hp
  | cons p0 t ih =>
    intro ps' h p hp hty
    rw [rewrite_params_fetch] at h
    split at h
    · split at h
      · exact Option.noConfusion h
      · rename_i qid hqid
        split at h
        · exact Option.noConfusion h
        · rename_i nm hnm
          obtain ⟨t', hrec, hps⟩ := Option.map_eq_some'.1 h
          rw [← hps] at hp
          rcases List.mem_cons.1 hp with he | htail
          · rw [he]
            exact ⟨⟨nm, rfl⟩, rfl⟩
          · exact ih t' hrec p htail hty
    · rename_i hty0
      obtain ⟨t', hrec, hps⟩ := Option.map_eq_some'.1 h
      rw [← hps] at hp
      rcases List.mem_cons.1 hp with he | htail
      · rw [he] at hty
        exact absurd hty hty0
      · exact ih t' hrec p htail hty

theorem upload_query_payload_resolved (rank : String → Nat) (E0 : String → Bool)
    (fuel : Nat) (qname : String) (st st' : PushState) (qd : QueryData) (i : Nat)
    (hrank : RankOk st.saved rank)
    (hq : lookupA qname st.saved = some qd) (hu : qd.uploaded_id = none)
    (hrun : upload_query fuel qname st = some (i, st')) :
    ∃ qid payload Δ, st'.trace = st.trace ++ Δ ∧
      RemoteOp.updateQuery qname qid payload ∈ Δ ∧
      ∀ j p, payload.params.get? j = some p → p.ptype = "query" →
        (∃ d2, p.queryId = some d2) ∧ p.queryName = none := by
  have hrkE : RankOkE st.saved rank := rankOk_to_E hrank
  cases fuel with
  | zero => exact Option.noConfusion hrun
  | succ fuel =>
    rw [upload_query] at hrun
    split at hrun
    · exact Option.noConfusion hrun
    · rename_i q0 hq0
      have hq0d : q0 = qd := by
        rw [hq] at hq0
        exact (Option.some.inj hq0).symm
      rw [hq0d] at hrun
      clear hq0
      split at hrun
      · rename_i i0 hui
        rw [hu] at hui
        cases hui
      · split at hrun
        · exact Option.noConfusion hrun
        · rename_i st1 hrp
          split at hrun
          · exact Option.noConfusion hrun
          · rename_i q1 hq1
            have hupst : uploadedId st qname = none := by
              unfold uploadedId
              rw [hq]
              simp [hu]
            obtain ⟨mono1, cf1, fb1, inv1, char1⟩ :=
              resolveParamsAux_spec rank E0 (upload_query fuel)
                (upload_query_spec rank E0 fuel) qname
                qd.params.length 0 st st1 hrp hrkE hupst
            obtain ⟨q'', hq'', _, _, _, hlen, _, hsuf⟩ := char1 qd hq
            have hq1q'' : q1 = q'' := by
              rw [hq1] at hq''
              exact Option.some.inj hq''
            have hparams : ∀ j p, q''.params.get? j = some p → p.ptype = "query" →
                (∃ d2, p.queryId = some d2) ∧ p.queryName = none := by
              intro j p hj hty
              have hjlen : j < q''.params.length := by
                rcases List.get?_eq_some.1 hj with ⟨hlt, _⟩
                exact hlt
              have hjlen0 : j < qd.params.length := by omega
              have hp0 : qd.params.get? j = some (qd.params.get ⟨j, hjlen0⟩) :=
                List.get?_eq_get hjlen0
              obtain ⟨hqcase, hncase⟩ :=
                hsuf j (qd.params.get ⟨j, hjlen0⟩) (by omega) (by omega) hp0
              by_cases hty0 : (qd.params.get ⟨j, hjlen0⟩).ptype = "query"
              · obtain ⟨d, i2, hdq, hkq, _⟩ := hqcase hty0
                rw [hj] at hkq
                have hpe := Option.some.inj hkq
                rw [hpe]
                exact ⟨⟨i2, rfl⟩, rfl⟩
              · have h2 := hncase hty0
                rw [hj] at h2
                have hpe := Option.some.inj h2
                rw [hpe] at hty
                exact absurd hty hty0
            have tail : ∀ st2 : PushState, uploadQueryTail qname st2 = some (i, st') →
                st2.saved = st1.saved → (∃ Δc, st2.trace = st1.trace ++ Δc) →
                ∃ qid payload Δ, st'.trace = st.trace ++ Δ ∧
                  RemoteOp.updateQuery qname qid payload ∈ Δ ∧
                  ∀ j p, payload.params.get? j = some p → p.ptype = "query" →
                    (∃ d2, p.queryId = some d2) ∧ p.queryName = none := by
              intro st2 ht hsav hce
              obtain ⟨Δc, htr2⟩ := hce
              obtain ⟨rq, q2, hrq, hq2, hieq, ⟨dv, hdv⟩, _, _, _, _, _⟩ :=
                uploadQueryTail_spec qname st2 st' i ht
              have hq2q1 : q2 = q1 := by
                rw [hsav, hq1] at hq2
                exact (Option.some.inj hq2).symm
              obtain ⟨Δ1, htr1⟩ := mono1.1
              refine ⟨rq.id, q2,
                Δ1 ++ (Δc ++ RemoteOp.updateQuery qname rq.id q2 :: dv), ?_, ?_, ?_⟩
              · rw [hdv, htr2, htr1]
                simp [List.append_assoc]
              · exact List.mem_append_right _
                  (List.mem_append_right _ (List.mem_cons_self _ _))
              · rw [hq2q1, hq1q'']
                exact hparams
            split at hrun
            · rename_i rq0 hex
              exact tail st1 hrun rfl ⟨[], by simp⟩
            · rename_i hex
              exact tail _ hrun rfl ⟨[RemoteOp.createQuery qname q1], rfl⟩

/-- C7: a query-typed parameter reference never holds both forms.  In
the fetch artifact (after the parameter rewrite) every query-typed
parameter holds a `queryName` and no `queryId`; in the update payload
the upload engine sends for a query (after resolving its parameters)
every query-typed parameter holds a `queryId` and no `queryName`. -/
theorem C7_reference_forms :
    (∀ (qbi : List (Nat × String)) (ps ps' : List Param),
      rewrite_params_fetch qbi ps = some ps' →
      ∀ p ∈ ps', p.ptype = "query" →
        (∃ nm, p.queryName = some nm) ∧ p.queryId = none) ∧
    (∀ (rank : String → Nat) (E0 : String → Bool) (fuel : Nat) (qname : String)
        (st st' : PushState) (qd : QueryData) (i : Nat),
      RankOk st.saved rank →
      lookupA qname st.saved = some qd → qd.uploaded_id = none →
      upload_query fuel qname st = some (i, st') →
      ∃ qid payload Δ, st'.trace = st.trace ++ Δ ∧
        RemoteOp.updateQuery qname qid payload ∈ Δ ∧
        ∀ j p, payload.params.get? j = some p → p.ptype = "query" →
          (∃ d2, p.queryId = some d2) ∧ p.queryName = none) :=
  ⟨fun qbi => rewrite_params_fetch_resolved qbi,
    fun rank E0 fuel qname st st' qd i hrank hq hu hrun =>
      upload_query_payload_resolved rank E0 fuel qname st st' qd i hrank hq hu hrun⟩

theorem C7_witness :
    ((∃ nm, (⟨"query", none, some "QX"⟩ : Param).queryName = some nm) ∧
      (⟨"query", none, some "QX"⟩ : Param).queryId = none) ∧
    (∃ qid payload Δ, c7Res.2.trace = c7St.trace ++ Δ ∧
      RemoteOp.updateQuery "A" qid payload ∈ Δ ∧
      ∀ j p, payload.params.get? j = some p → p.ptype = "query" →
        (∃ d2, p.queryId = some d2) ∧ p.queryName = none) :=
  ⟨C7_reference_forms.1 [(3, "QX")] [c7Param] [⟨"query", none, some "QX"⟩]
      (by decide) ⟨"query", none, some "QX"⟩ (by decide) rfl,
    C7_reference_forms.2 (fun n => 0) (fun n => (lookupA n c7St.existing).isSome) 1
      "A" c7St c7Res.2 c7QA c7Res.1 (by unfold RankOk; decide) (by decide) rfl rfl⟩

/-! ### Claim C8: merge-on-change of allow-listed fields -/

/-- C8: during the fetch merge, an allow-listed field is reassigned into
the pre-existing on-disk document only when the fetched value differs
from the stored one; equal values leave the document — in particular the
stored node and its round-trip annotations — untouched.  First part: the
query-metadata merge (including the `field in query` guard); second
part: the dashboard merge. -/
theorem C8_merge_on_change :
    (∀ (V : Type) [DecidableEq V] (doc : List (String × Node V)) (f : String) (v : V),
      ((lookupA f doc).map Node.val = some v → merge_field doc f (some v) = doc) ∧
      ((lookupA f doc).map Node.val ≠ some v →
        merge_field doc f (some v) = setA f ⟨v, 0⟩ doc) ∧
      merge_field doc f none = doc) ∧
    (∀ (V : Type) [DecidableEq V] (doc : List (String × Node V)) (f : String)
        (dash : String → V),
      ((lookupA f doc).map Node.val = some (dash f) →
        merge_fields_dashboard [f] dash doc = doc) ∧
      ((lookupA f doc).map Node.val ≠ some (dash f) →
        merge_fields_dashboard [f] dash doc = setA f ⟨dash f, 0⟩ doc)) := by
  constructor
  · intro V _ doc f v
    refine ⟨?_, ?_, rfl⟩
    · intro h
      show (if (lookupA f doc).map Node.val = some v then doc
        else setA f ⟨v, 0⟩ doc) = doc
      rw [if_pos h]
    · intro h
      show (if (lookupA f doc).map Node.val = some v then doc
        else setA f ⟨v, 0⟩ doc) = setA f ⟨v, 0⟩ doc
      rw [if_neg h]
  · intro V _ doc f dash
    constructor
    · intro h
      show (if (lookupA f doc).map Node.val = some (dash f) then doc
        else setA f ⟨dash f, 0⟩ doc) = doc
      rw [if_pos h]
    · intro h
      show (if (lookupA f doc).map Node.val = some (dash f) then doc
        else setA f ⟨dash f, 0⟩ doc) = setA f ⟨dash f, 0⟩ doc
      rw [if_neg h]

theorem C8_witness :
    (lookupA "name" [("name", (⟨7, 3⟩ : Node Nat))]).map Node.val = some 7 ∧
    merge_field [("name", (⟨7, 3⟩ : Node Nat))] "name" (some 7) =
      [("name", (⟨7, 3⟩ : Node Nat))] ∧
    (lookupA "name" [("name", (⟨7, 3⟩ : Node Nat))]).map Node.val ≠ some 8 ∧
    merge_field [("name", (⟨7, 3⟩ : Node Nat))] "name" (some 8) =
      setA "name" ⟨8, 0⟩ [("name", (⟨7, 3⟩ : Node Nat))] :=
  ⟨by decide,
    (C8_merge_on_change.1 Nat [("name", ⟨7, 3⟩)] "name" 7).1 (by decide),
    by decide,
    ((C8_merge_on_change.1 Nat [("name", ⟨7, 3⟩)] "name" 8).2).1 (by decide)⟩

theorem C10_witness :
    lookupA "Nope" c10St.saved = none ∧
    update_dashboards [c10DashBad] c10St = none ∧
    (∀ d ∈ [c10DashOk], dashReady c10St d = true) ∧
    (∃ code st1, update_dashboards [c10DashOk] c10St = some (code, st1)) :=
  ⟨by decide,
    C10_missing_query_aborts.1 [c10DashBad] c10St c10DashBad
      ⟨some ⟨"V", "Nope"⟩, "t", 0, 0⟩ ⟨"V", "Nope"⟩ (by decide) (by decide) rfl (by decide),
    by decide,
    C10_missing_query_aborts.2 [c10DashOk] c10St (by decide) (by decide)⟩

end RedashLoader

